import Mathlib

/-!
Verification of the evaluation aggregation and comparison engine of
src/visualize/app.py: schema extraction over heterogeneous evaluation
documents, common score-type reconciliation, comparison-table construction,
summary statistics and visualization matrices.

The embedding models JSON values loaded by json.load as the inductive
type JValue (Python None and pandas NaN are both modelled by JValue.null,
numbers by rationals), and models each Python operation the source uses
(membership test, subscription, .keys(), .get(), truthiness, dict insertion)
as a small function returning Except PyErr, so that the places where the
source can raise are explicit.
-/

/-- A JSON value as loaded by json.load.  Python None (and the NaN that
pandas substitutes for a missing cell) is modelled by null; numbers are
modelled exactly as rationals. -/
inductive JValue where
  | null
  | bool (b : Bool)
  | num (q : ℚ)
  | str (s : String)
  | arr (elems : List JValue)
  | obj (fields : List (String × JValue))

/-- The Python exceptions the modelled code can raise. -/
inductive PyErr where
  | typeError
  | keyError (k : String)
  | attributeError
  | indexError
deriving DecidableEq

mutual

/-- Structural equality of JSON values, modelling Python == on values
loaded from JSON.  (Python's cross-type numeric equalities such as
True == 1 do not arise between values of the data model, whose ids are
strings and whose scores are numbers.) -/
def JValue.beq : JValue → JValue → Bool
  | .null, .null => true
  | .bool a, .bool b => a == b
  | .num a, .num b => decide (a = b)
  | .str a, .str b => a == b
  | .arr xs, .arr ys => JValue.beqList xs ys
  | .obj fs, .obj gs => JValue.beqFields fs gs
  | _, _ => false

/-- Elementwise equality of JSON arrays. -/
def JValue.beqList : List JValue → List JValue → Bool
  | [], [] => true
  | x :: xs, y :: ys => x.beq y && JValue.beqList xs ys
  | _, _ => false

/-- Elementwise equality of JSON object field lists. -/
def JValue.beqFields : List (String × JValue) → List (String × JValue) → Bool
  | [], [] => true
  | (k, v) :: fs, (k', v') :: gs => k == k' && v.beq v' && JValue.beqFields fs gs
  | _, _ => false

end

/-- First-match lookup in a JSON object's field list; Python dicts have
unique keys, and dict subscription and .get retrieve the value stored at
the key. -/
def lookupField : List (String × JValue) → String → Option JValue
  | [], _ => none
  | (k, v) :: fs, key => if k = key then some v else lookupField fs key

/-- Does the character list pat occur as a leading segment of l. -/
def listStartsWith : List Char → List Char → Bool
  | [], _ => true
  | _ :: _, [] => false
  | p :: ps, c :: cs => p == c && listStartsWith ps cs

/-- Does the character list pat occur as a contiguous segment of l
(Python substring containment for the in operator on strings). -/
def listHasSub (pat : List Char) : List Char → Bool
  | [] => pat.isEmpty
  | c :: cs => listStartsWith pat (c :: cs) || listHasSub pat cs

/-- Python: pat in s, both strings (substring containment). -/
def strHasSub (s pat : String) : Bool := listHasSub pat.data s.data

/-- Python: key in v.  Dicts test key membership, lists test element
membership under ==, strings test substring containment; other values
raise TypeError. -/
def pyContains (key : String) : JValue → Except PyErr Bool
  | .obj fs => .ok (lookupField fs key).isSome
  | .arr xs => .ok (xs.any fun v => v.beq (.str key))
  | .str s => .ok (strHasSub s key)
  | _ => .error .typeError

/-- Python: v[key] with a string key.  Dicts return the stored value or
raise KeyError; every other value raises TypeError. -/
def pyIndexStr : JValue → String → Except PyErr JValue
  | .obj fs, key =>
    match lookupField fs key with
    | some v => .ok v
    | none => .error (.keyError key)
  | _, _ => .error .typeError

/-- Python: v[0].  Lists return their first element (IndexError when
empty), strings their first character, dicts raise KeyError 0, and other
values raise TypeError. -/
def pyIndexZero : JValue → Except PyErr JValue
  | .arr (x :: _) => .ok x
  | .arr [] => .error .indexError
  | .str s =>
    match s.data with
    | c :: _ => .ok (.str ⟨[c]⟩)
    | [] => .error .indexError
  | .obj _ => .error (.keyError "0")
  | _ => .error .typeError

/-- Python: v.keys(), in insertion order; only dicts have the attribute. -/
def pyKeys : JValue → Except PyErr (List String)
  | .obj fs => .ok (fs.map Prod.fst)
  | _ => .error .attributeError

/-- Python truthiness of a JSON value. -/
def pyTruthy : JValue → Bool
  | .null => false
  | .bool b => b
  | .num q => decide (q ≠ 0)
  | .str s => !s.data.isEmpty
  | .arr xs => !xs.isEmpty
  | .obj fs => !fs.isEmpty

/-- Python: v.get(key, dflt); only dicts have the .get attribute. -/
def pyGet (v : JValue) (key : String) (dflt : JValue) : Except PyErr JValue :=
  match v with
  | .obj fs => .ok ((lookupField fs key).getD dflt)
  | _ => .error .attributeError

/-- Python iteration over v (for x in v): lists yield their elements,
dicts their keys, strings their characters; numbers, booleans and None
raise TypeError. -/
def pyIterElems : JValue → Except PyErr (List JValue)
  | .arr xs => .ok xs
  | .obj fs => .ok (fs.map fun p => .str p.1)
  | .str s => .ok (s.data.map fun c => .str ⟨[c]⟩)
  | _ => .error .typeError

/-- Python dict insertion d[key] = v: an existing key keeps its position
and gets the new value, a new key is appended. -/
def dictInsert (d : List (String × JValue)) (key : String) (v : JValue) :
    List (String × JValue) :=
  if (lookupField d key).isSome then
    d.map fun p => if p.1 = key then (key, v) else p
  else d ++ [(key, v)]

/-- Python set.add under ==: a value already present (by JValue.beq) is
not added again.  The set is modelled as its insertion-ordered support
list; only the underlying set of elements matters to the callers, which
sort it before use. -/
def pySetAdd (s : List JValue) (v : JValue) : List JValue :=
  if s.any (fun x => x.beq v) then s else s ++ [v]

/-- Code-point comparison of two character lists, as Python compares
strings lexicographically by code point. -/
def lexLeB : List Char → List Char → Bool
  | [], _ => true
  | _ :: _, [] => false
  | a :: as, b :: bs => if a = b then lexLeB as bs else decide (a < b)

/-- Python string comparison s1 <= s2 (lexicographic on code points). -/
def strLeB (a b : String) : Bool := lexLeB a.data b.data

/-- The ordering relation used by Python's sorted() on strings. -/
def strLe (a b : String) : Prop := strLeB a b = true

instance strLe.decidableRel : DecidableRel strLe := fun a b =>
  inferInstanceAs (Decidable (strLeB a b = true))

/-- Python sorted() on a list of strings. -/
def pySortStrs (l : List String) : List String := l.insertionSort strLe

/-- The schema inferred from one evaluation document
(extract_schema, src/visualize/app.py lines 63-89): Python sets of field
names, modelled as finite sets of strings. -/
structure Schema where
  score_types : Finset String
  metadata_fields : Finset String
  evaluation_fields : Finset String
deriving DecidableEq

/-- extract_schema (src/visualize/app.py lines 63-89), translated
statement by statement: metadata_fields from evaluation_metadata.keys()
when the key is present, score_types from evaluation_criteria.keys()
unioned with the scores keys of the first element of evaluations when
that list is present and truthy, evaluation_fields from that first
element's keys. -/
def extract_schema (evaluation_data : JValue) : Except PyErr Schema := do
  let b1 ← pyContains "evaluation_metadata" evaluation_data
  let metadata_fields ←
    if b1 then do
      let v ← pyIndexStr evaluation_data "evaluation_metadata"
      let ks ← pyKeys v
      pure ks.toFinset
    else pure (∅ : Finset String)
  let b2 ← pyContains "evaluation_criteria" evaluation_data
  let score_types ←
    if b2 then do
      let v ← pyIndexStr evaluation_data "evaluation_criteria"
      let ks ← pyKeys v
      pure ks.toFinset
    else pure (∅ : Finset String)
  let b3 ← pyContains "evaluations" evaluation_data
  if b3 then do
    let evs ← pyIndexStr evaluation_data "evaluations"
    if pyTruthy evs then do
      let first_eval ← pyIndexZero evs
      let efs ← pyKeys first_eval
      let b4 ← pyContains "scores" first_eval
      if b4 then do
        let sc ← pyIndexStr first_eval "scores"
        let sks ← pyKeys sc
        pure ⟨score_types ∪ sks.toFinset, metadata_fields, efs.toFinset⟩
      else
        pure ⟨score_types, metadata_fields, efs.toFinset⟩
    else
      pure ⟨score_types, metadata_fields, ∅⟩
  else
    pure ⟨score_types, metadata_fields, ∅⟩

/-- set.intersection over the score_types of the loaded schemas
(src/visualize/app.py line 339); the caller guarantees the list is
non-empty (main returns early when no evaluations loaded). -/
def commonScoreTypes : List Schema → Finset String
  | [] => ∅
  | s :: rest => rest.foldl (fun acc sch => acc ∩ sch.score_types) s.score_types

/-- One row of the comparison table: the Python dict built per question
(src/visualize/app.py lines 152-176). -/
abbrev Row := List (String × JValue)

/-- One item of the first pass of create_comparison_table (line 148):
all_questions.update with one q['question_id']. -/
def collectItemStep (a : List JValue) (q : JValue) : Except PyErr (List JValue) := do
  let v ← pyIndexStr q "question_id"
  pure (pySetAdd a v)

/-- One document of the first pass (lines 147-148). -/
def collectDocStep (acc : List JValue) (p : String × JValue) :
    Except PyErr (List JValue) := do
  let evs ← pyGet p.2 "evaluations" (.arr [])
  let items ← pyIterElems evs
  items.foldlM collectItemStep acc

/-- The first pass of create_comparison_table (lines 146-148): the set of
q['question_id'] over every item of every document's evaluations list. -/
def collectQuestionIds (evaluations : List (String × JValue)) :
    Except PyErr (List JValue) :=
  evaluations.foldlM collectDocStep []

/-- If every collected question id is a string, the underlying list of
strings; sorted() over ids of mixed or non-string types is outside the
data model (ids are strings) and is modelled as Python's TypeError for
unorderable values. -/
def toStrList : List JValue → Option (List String)
  | [] => some []
  | .str s :: rest => (toStrList rest).map (s :: ·)
  | _ :: _ => none

/-- sorted(all_questions) (line 151). -/
def pySortedIds (vs : List JValue) : Except PyErr (List String) :=
  match toStrList vs with
  | some ss => .ok (pySortStrs ss)
  | none => .error .typeError

/-- next((q for q in items if q['question_id'] == question_id), None)
(lines 161-165): a lazy linear scan that subscripts each item until the
first match, so items after the first match are never inspected. -/
def findQuestion : List JValue → String → Except PyErr (Option JValue)
  | [], _ => .ok none
  | q :: rest, question_id => do
    let v ← pyIndexStr q "question_id"
    if v.beq (.str question_id) then pure (some q)
    else findQuestion rest question_id

/-- The body of the inner loop of create_comparison_table for one
document (lines 155-175): record the evaluator column, find the first
item matching the question id, then record one cell per score type.
The source tests the found item with `if question_data:`, which is
Python truthiness, not just None-ness; this is modelled exactly. -/
def buildRowStep (score_types : List String) (question_id : String)
    (row_data : Row) (p : String × JValue) : Except PyErr Row := do
  let model_name := p.1
  let eval_data := p.2
  let meta ← pyGet eval_data "evaluation_metadata" (.obj [])
  let evaluator ← pyGet meta "evaluator" (.str "unknown")
  let row_data := dictInsert row_data (model_name ++ "_evaluator") evaluator
  let evs ← pyGet eval_data "evaluations" (.arr [])
  let items ← pyIterElems evs
  let question_data ← findQuestion items question_id
  match question_data with
  | some item =>
    if pyTruthy item then do
      let scores ← pyIndexStr item "scores"
      score_types.foldlM
        (fun rd s => do
          let v ← pyGet scores s .null
          pure (dictInsert rd (model_name ++ "_" ++ s) v))
        row_data
    else
      pure (score_types.foldl
        (fun rd s => dictInsert rd (model_name ++ "_" ++ s) .null) row_data)
  | none =>
    pure (score_types.foldl
      (fun rd s => dictInsert rd (model_name ++ "_" ++ s) .null) row_data)

/-- The body of the outer loop of create_comparison_table for one
question id (lines 152-176). -/
def buildRow (evaluations : List (String × JValue)) (score_types : List String)
    (question_id : String) : Except PyErr Row :=
  evaluations.foldlM (buildRowStep score_types question_id)
    [("question_id", .str question_id)]

/-- create_comparison_table (src/visualize/app.py lines 140-178).  The
evaluations dict is modelled as its insertion-ordered association list;
score_types is the common score-type set in its Python set iteration
order, taken here as an explicit list parameter. -/
def create_comparison_table (evaluations : List (String × JValue))
    (score_types : List String) : Except PyErr (List Row) := do
  let qvals ← collectQuestionIds evaluations
  let all_questions ← pySortedIds qvals
  all_questions.mapM (buildRow evaluations score_types)

/-- The pandas DataFrame made from the list of row dicts: columns in
order of first appearance across rows, plus the rows themselves.  A cell
whose key a row lacks is NaN, modelled by null. -/
structure DF where
  cols : List String
  rows : List Row

/-- pd.DataFrame(comparison_data) (line 178). -/
def pdDataFrame (rs : List Row) : DF :=
  ⟨((rs.map fun r => r.map Prod.fst).flatten).dedup, rs⟩

/-- df[c]: the column as a list of cell values (missing keys become NaN,
modelled by null); a column name the frame lacks raises KeyError. -/
def dfGetCol (df : DF) (c : String) : Except PyErr (List JValue) :=
  if c ∈ df.cols then
    .ok (df.rows.map fun r => (lookupField r c).getD .null)
  else .error (.keyError c)

/-- comparison_df[~comparison_df['question_id'].isin(excluded_questions)]
(line 357): row filtering preserves the column set; isin compares cell
values to the excluded values under ==. -/
def filterNotExcluded (df : DF) (excluded : List JValue) : Except PyErr DF :=
  if "question_id" ∈ df.cols then
    .ok ⟨df.cols,
      df.rows.filter fun r =>
        !(excluded.any fun e =>
          e.beq ((lookupField r "question_id").getD .null))⟩
  else .error (.keyError "question_id")

/-- pandas linear-interpolation quantile on an already-sorted non-empty
sample: at position p = q * (n - 1), the value is
x_i + (x_{i+1} - x_i) * (p - i) with i = floor p. -/
def pdQuantileOfSorted (q : ℚ) (s : List ℚ) : Option ℚ :=
  match s with
  | [] => none
  | x :: rest =>
    let s' := x :: rest
    let p : ℚ := q * ((s'.length : ℚ) - 1)
    let i : ℤ := ⌊p⌋
    let x0 := s'.getD i.toNat 0
    let x1 := s'.getD (i.toNat + 1) x0
    some (x0 + (x1 - x0) * (p - (i : ℚ)))

/-- Series.quantile(q) with the default linear interpolation, after the
NaN values have been dropped (the caller passes the non-missing sample);
the empty sample yields NaN, modelled as none.  Series.median() is
quantile(0.5). -/
def pdQuantile (q : ℚ) (xs : List ℚ) : Option ℚ :=
  pdQuantileOfSorted q (xs.insertionSort (· ≤ ·))

/-- The numeric sample of a column: pandas drops None/NaN cells from
quantile computations (never treating them as zero); a non-numeric cell
makes the column object-typed and quantile raises, modelled as TypeError. -/
def seriesNums : List JValue → Except PyErr (List ℚ)
  | [] => .ok []
  | .null :: rest => seriesNums rest
  | .num x :: rest => do
    let r ← seriesNums rest
    pure (x :: r)
  | _ :: _ => .error .typeError

/-- The three formatted statistics of one (document, score type) pair
(line 377): Q25, median (= quantile(0.5)), Q75 over the filtered column. -/
def score_stats (filtered : DF) (col : String) :
    Except PyErr (Option ℚ × Option ℚ × Option ℚ) := do
  let cells ← dfGetCol filtered col
  let vals ← seriesNums cells
  pure (pdQuantile (1 / 4) vals, pdQuantile (1 / 2) vals, pdQuantile (3 / 4) vals)

/-- Series.iloc[0]: the first element, an IndexError when empty. -/
def iloc0 (col : List JValue) : Except PyErr JValue :=
  match col with
  | [] => .error .indexError
  | v :: _ => .ok v

/-- One model's summary row (lines 366-379): the evaluator is read from
the first row of the model's evaluator column of the full table
(iloc[0], an IndexError on an empty table), the statistics from the
filtered table. -/
def model_summary (table filtered : DF) (model_name : String)
    (score_types : List String) :
    Except PyErr (JValue × List (String × (Option ℚ × Option ℚ × Option ℚ))) := do
  let ecol ← dfGetCol table (model_name ++ "_evaluator")
  let evaluator ← iloc0 ecol
  let stats ← score_types.mapM fun s => do
    let st ← score_stats filtered (model_name ++ "_" ++ s)
    pure (s, st)
  pure (evaluator, stats)

/-- The whole summary table (lines 365-381), one entry per model in the
evaluations dict's insertion order. -/
def summary_table (table filtered : DF) (models score_types : List String) :
    Except PyErr
      (List (String × JValue × List (String × (Option ℚ × Option ℚ × Option ℚ)))) :=
  models.mapM fun m => do
    let r ← model_summary table filtered m score_types
    pure (m, r.1, r.2)

/-- Replace every occurrence of pat (non-empty: callers always pass a
pattern starting with an underscore) in l by rep, scanning left to right
and not rescanning the replacement, as str.replace does.  The fuel is the
length of l; every step consumes at least one character. -/
def replaceAllFuel : Nat → List Char → List Char → List Char → List Char
  | 0, l, _, _ => l
  | _ + 1, [], _, _ => []
  | n + 1, c :: cs, pat, rep =>
    if listStartsWith pat (c :: cs) then
      rep ++ replaceAllFuel n ((c :: cs).drop pat.length) pat rep
    else
      c :: replaceAllFuel n cs pat rep

/-- Python str.replace(pat, rep) for a non-empty pattern. -/
def strReplace (s pat rep : String) : String :=
  ⟨replaceAllFuel s.data.length s.data pat.data rep.data⟩

/-- Python str.endswith(pat). -/
def strEndsWith (s pat : String) : Bool :=
  if pat.data.length ≤ s.data.length then
    s.data.drop (s.data.length - pat.data.length) == pat.data
  else false

/-- The per-score-type columns selected by create_score_heatmap
(line 184): every column whose name ends with _score_type. -/
def score_cols (df : DF) (score_type : String) : List String :=
  df.cols.filter fun c => strEndsWith c ("_" ++ score_type)

/-- The data of one heatmap (create_score_heatmap, lines 181-203):
model names recovered by str.replace, z the selected columns' values row
by row, y the question_id column of the frame it is given. -/
structure Heatmap where
  model_names : List String
  y : List JValue
  z : List (List JValue)

/-- create_score_heatmap (lines 180-234), reduced to the data that
parameterizes the figure. -/
def create_score_heatmap (df : DF) (score_type : String) :
    Except PyErr Heatmap := do
  let cols := score_cols df score_type
  let model_names := cols.map fun c => strReplace c ("_" ++ score_type) ""
  let z := df.rows.map fun r => cols.map fun c => (lookupField r c).getD .null
  let y ← dfGetCol df "question_id"
  pure ⟨model_names, y, z⟩

/-- create_score_histogram (lines 236-290), reduced to the plotted
samples: per model, the model's score column with NaN dropped. -/
def create_score_histogram (model_names : List String) (df : DF)
    (score_type : String) : Except PyErr (List (String × List JValue)) :=
  model_names.mapM fun m => do
    let col ← dfGetCol df (m ++ "_" ++ score_type)
    pure (m, col.filter fun v => !(v.beq .null))

/-- The flat tabular text export of a frame (to_csv, lines 388 and 398):
the grid of cells in the frame's column order, one line per row. -/
def df_to_csv (df : DF) : List String × List (List JValue) :=
  (df.cols, df.rows.map fun r => df.cols.map fun c => (lookupField r c).getD .null)

/-- The derived views main builds from the loaded documents
(src/visualize/app.py lines 344-420): the comparison table (line 345),
the exclusion-filtered frame (line 357), the summary statistics over the
filtered frame (lines 364-381), the heatmaps over the full table
(line 410) and the histograms over the filtered frame (line 415).
score_types is the common score-type set in its Python iteration order;
excluded the values chosen in the exclusion multiselect.  The display
loop interleaves each heatmap with its histogram; the two passes here
perform the same computations. -/
structure ViewOut where
  table : DF
  filtered : DF
  summary : List (String × JValue × List (String × (Option ℚ × Option ℚ × Option ℚ)))
  heatmaps : List (String × Heatmap)
  histograms : List (String × List (String × List JValue))

/-- The heatmap pass of the display loop (lines 408-411), one heatmap
per score type, over the full comparison frame. -/
def mainHeatmaps (df : DF) (score_types : List String) :
    Except PyErr (List (String × Heatmap)) :=
  score_types.mapM fun s => do
    let h ← create_score_heatmap df s
    pure (s, h)

/-- The histogram pass of the display loop (lines 413-416), one
histogram set per score type, over the filtered frame. -/
def mainHistograms (models : List String) (df : DF) (score_types : List String) :
    Except PyErr (List (String × List (String × List JValue))) :=
  score_types.mapM fun s => do
    let h ← create_score_histogram models df s
    pure (s, h)

def mainView (evaluations : List (String × JValue)) (score_types : List String)
    (excluded : List JValue) : Except PyErr ViewOut := do
  let rows ← create_comparison_table evaluations score_types
  let comparison_df := pdDataFrame rows
  let filtered_df ← filterNotExcluded comparison_df excluded
  let summary ← summary_table comparison_df filtered_df
    (evaluations.map Prod.fst) score_types
  let heatmaps ← mainHeatmaps comparison_df score_types
  let histograms ← mainHistograms (evaluations.map Prod.fst) filtered_df
    score_types
  pure ⟨comparison_df, filtered_df, summary, heatmaps, histograms⟩

/-- The items of a document's evaluations list (empty when the field is
absent); a direct structural reading used by the characterization
definitions below. -/
def docItems (d : JValue) : List JValue :=
  match d with
  | .obj fs =>
    match lookupField fs "evaluations" with
    | some (.arr items) => items
    | _ => []
  | _ => []

/-- The question id of an item, when the item is an object carrying a
string question_id. -/
def itemQid (q : JValue) : Option String :=
  match q with
  | .obj fs =>
    match lookupField fs "question_id" with
    | some (.str s) => some s
    | _ => none
  | _ => none

/-- All question ids of all items of all documents, in document order. -/
def allQidsFlat (evaluations : List (String × JValue)) : List String :=
  (evaluations.map fun p => (docItems p.2).filterMap itemQid).flatten

/-- The sorted union of question ids across the loaded documents: the
row-key sequence the spec promises for the comparison table. -/
def specSortedUnion (evaluations : List (String × JValue)) : List String :=
  pySortStrs (allQidsFlat evaluations).dedup

/-- The first item of a document whose question_id is the given id, read
structurally (first match wins). -/
def findQuestionPure (items : List JValue) (question_id : String) : Option JValue :=
  items.find? fun q =>
    match itemQid q with
    | some s => s == question_id
    | none => false

/-- The evaluator identity the table records for a document:
evaluation_metadata.evaluator, or the sentinel "unknown". -/
def docEvaluator (d : JValue) : JValue :=
  match d with
  | .obj fs =>
    match lookupField fs "evaluation_metadata" with
    | some (.obj mf) => (lookupField mf "evaluator").getD (.str "unknown")
    | _ => .str "unknown"
  | _ => .str "unknown"

/-- The score cell the table records for (document, question id, score
type): the score of the first matching item, null when the document has
no item for the id or the item's scores lack the type. -/
def specCell (d : JValue) (question_id score_type : String) : JValue :=
  match findQuestionPure (docItems d) question_id with
  | some (.obj fs) =>
    match lookupField fs "scores" with
    | some (.obj sc) => (lookupField sc score_type).getD .null
    | _ => .null
  | _ => .null

/-- The cells one document contributes to a row: its evaluator column
followed by its score columns. -/
def modelRowCells (p : String × JValue) (score_types : List String)
    (question_id : String) : Row :=
  (p.1 ++ "_evaluator", docEvaluator p.2) ::
    score_types.map fun s => (p.1 ++ "_" ++ s, specCell p.2 question_id s)

/-- The row the builder produces for one question id, laid out key by
key: question_id first, then per document its evaluator column followed
by its score columns. -/
def specRow (evaluations : List (String × JValue)) (score_types : List String)
    (question_id : String) : Row :=
  ("question_id", .str question_id) ::
    (evaluations.map fun p => modelRowCells p score_types question_id).flatten

/-- The column names one document contributes. -/
def modelColNames (m : String) (score_types : List String) : List String :=
  (m ++ "_evaluator") :: score_types.map fun s => m ++ "_" ++ s

/-- The column names the builder generates, in generation order. -/
def tableColNames (models score_types : List String) : List String :=
  "question_id" :: (models.map fun m => modelColNames m score_types).flatten

/-- Modelled from the spec: "column order = sorted document ids × sorted
score types" for the export surface, read as the generated column layout
taken over the documents and score types in sorted order. -/
def spec_export_columns (evaluations : List (String × JValue))
    (score_types : List String) : List String :=
  tableColNames (pySortStrs (evaluations.map Prod.fst)) (pySortStrs score_types)

/-- An option that is absent or holds a JSON object: the shape every
optional mapping-valued field must have for the source's .keys()/.get
accesses to succeed. -/
def isStrMapOpt : Option JValue → Bool
  | none => true
  | some (.obj _) => true
  | some _ => false

/-- An evaluations item as the data model describes it: an object with a
string question_id. -/
def wfItem : JValue → Bool
  | .obj fs =>
    match lookupField fs "question_id" with
    | some (.str _) => true
    | _ => false
  | _ => false

/-- An item carrying a scores object. -/
def wfItemScores : JValue → Bool
  | .obj fs =>
    match lookupField fs "scores" with
    | some (.obj _) => true
    | _ => false
  | _ => false

/-- A document shaped as the table builder requires: a top-level object
whose evaluation_metadata (if present) is an object and whose evaluations
(if present) is a list of well-formed items. -/
def wfDoc : JValue → Bool
  | .obj fs =>
    isStrMapOpt (lookupField fs "evaluation_metadata") &&
      (match lookupField fs "evaluations" with
      | none => true
      | some (.arr items) => items.all wfItem
      | some _ => false)
  | _ => false

/-- A document shaped as extract_schema requires: a top-level object
whose evaluation_metadata and evaluation_criteria (if present) are
objects, and whose evaluations (if present) is a list whose first item
(if any) is an object with an object-valued scores field if present. -/
def wfDocSchema : JValue → Bool
  | .obj fs =>
    isStrMapOpt (lookupField fs "evaluation_metadata") &&
      isStrMapOpt (lookupField fs "evaluation_criteria") &&
      (match lookupField fs "evaluations" with
      | none => true
      | some (.arr []) => true
      | some (.arr (e :: _)) =>
        match e with
        | .obj efs => isStrMapOpt (lookupField efs "scores")
        | _ => false
      | some _ => false)
  | _ => false

/-- For every question id in qids, the first matching item of the
document (when there is one) carries a scores object: the precondition
under which the builder's question_data['scores'] subscription succeeds. -/
def wfFirstMatches (d : JValue) (qids : List String) : Bool :=
  qids.all fun q =>
    match findQuestionPure (docItems d) q with
    | some item => wfItemScores item
    | none => true

/-- The numeric value of a cell, when it has one. -/
def toNum : JValue → Option ℚ
  | .num x => some x
  | _ => none

/-! ### Order properties of the string comparison used by sorted() -/

theorem lexLeB_total : ∀ a b : List Char, lexLeB a b = true ∨ lexLeB b a = true
  | [], _ => .inl rfl
  | _ :: _, [] => .inr rfl
  | a :: as, b :: bs => by
    by_cases hab : a = b
    · subst hab
      simpa [lexLeB] using lexLeB_total as bs
    · rcases lt_or_gt_of_ne hab with h | h
      · left
        simp [lexLeB, hab, h]
      · right
        simp [lexLeB, Ne.symm hab, h]

theorem lexLeB_trans :
    ∀ a b c : List Char, lexLeB a b = true → lexLeB b c = true → lexLeB a c = true
  | [], _, _ => by simp [lexLeB]
  | _ :: _, [], _ => by simp [lexLeB]
  | _ :: _, _ :: _, [] => by simp [lexLeB]
  | a :: as, b :: bs, c :: cs => by
    intro h1 h2
    by_cases hab : a = b <;> by_cases hbc : b = c
    · subst hab
      subst hbc
      simp only [lexLeB, if_pos rfl] at h1 h2 ⊢
      exact lexLeB_trans as bs cs h1 h2
    · subst hab
      simp only [lexLeB, if_neg hbc] at h2 ⊢
      exact h2
    · subst hbc
      simp only [lexLeB, if_neg hab] at h1 ⊢
      exact h1
    · simp only [lexLeB, if_neg hab, decide_eq_true_eq] at h1
      simp only [lexLeB, if_neg hbc, decide_eq_true_eq] at h2
      have hac : a < c := lt_trans h1 h2
      simp [lexLeB, ne_of_lt hac, hac]

theorem lexLeB_antisymm :
    ∀ a b : List Char, lexLeB a b = true → lexLeB b a = true → a = b
  | [], [] => by simp
  | [], _ :: _ => by simp [lexLeB]
  | _ :: _, [] => by simp [lexLeB]
  | a :: as, b :: bs => by
    intro h1 h2
    by_cases hab : a = b
    · subst hab
      simp only [lexLeB, if_pos rfl] at h1 h2
      rw [lexLeB_antisymm as bs h1 h2]
    · simp only [lexLeB, if_neg hab, decide_eq_true_eq] at h1
      simp only [lexLeB, if_neg (Ne.symm hab), decide_eq_true_eq] at h2
      exact absurd h2 (lt_asymm h1)

instance strLe.isTotal : IsTotal String strLe :=
  ⟨fun a b => lexLeB_total a.data b.data⟩

instance strLe.isTrans : IsTrans String strLe :=
  ⟨fun a b c => lexLeB_trans a.data b.data c.data⟩

instance strLe.isAntisymm : IsAntisymm String strLe :=
  ⟨fun a b h1 h2 => by
    have h := lexLeB_antisymm a.data b.data h1 h2
    cases a
    cases b
    exact congrArg String.mk h⟩

theorem pySortStrs_sorted (l : List String) : List.Sorted strLe (pySortStrs l) :=
  List.sorted_insertionSort strLe l

theorem pySortStrs_perm (l : List String) : List.Perm (pySortStrs l) l :=
  List.perm_insertionSort strLe l

theorem pySortStrs_mem {s : String} {l : List String} :
    s ∈ pySortStrs l ↔ s ∈ l :=
  (pySortStrs_perm l).mem_iff

theorem pySortStrs_nodup {l : List String} (h : l.Nodup) :
    (pySortStrs l).Nodup :=
  ((pySortStrs_perm l).nodup_iff).mpr h

/-- Two duplicate-free lists with the same members sort to the same
sequence: sorting makes the row-key order canonical. -/
theorem pySortStrs_congr {l₁ l₂ : List String} (h₁ : l₁.Nodup) (h₂ : l₂.Nodup)
    (hm : ∀ s, s ∈ l₁ ↔ s ∈ l₂) : pySortStrs l₁ = pySortStrs l₂ :=
  List.eq_of_perm_of_sorted
    ((pySortStrs_perm l₁).trans
      (((List.perm_ext_iff_of_nodup h₁ h₂).mpr hm).trans (pySortStrs_perm l₂).symm))
    (pySortStrs_sorted l₁) (pySortStrs_sorted l₂)

/-! ### Basic lemmas about the Python-operation model -/

theorem JValue.beq_str_iff (v : JValue) (s : String) :
    (v.beq (.str s) = true) ↔ v = .str s := by
  cases v <;> simp [JValue.beq]

theorem JValue.beq_null_iff (v : JValue) : (v.beq .null = true) ↔ v = .null := by
  cases v <;> simp [JValue.beq]

theorem lookupField_eq_none {fs : List (String × JValue)} {k : String} :
    lookupField fs k = none ↔ k ∉ fs.map Prod.fst := by
  induction fs with
  | nil => simp [lookupField]
  | cons p rest ih =>
    by_cases h : p.1 = k
    · simp [lookupField, h]
    · simp [lookupField, h, ih, Ne.symm h]

theorem lookupField_append {fs gs : List (String × JValue)} {k : String} :
    lookupField (fs ++ gs) k =
      ((lookupField fs k).rec (lookupField gs k) fun v => some v) := by
  induction fs with
  | nil => simp [lookupField]
  | cons p rest ih =>
    by_cases h : p.1 = k
    · simp [lookupField, h]
    · simp [lookupField, h, ih]

theorem lookupField_append_of_none {fs gs : List (String × JValue)} {k : String}
    (h : lookupField fs k = none) : lookupField (fs ++ gs) k = lookupField gs k := by
  rw [lookupField_append, h]

theorem lookupField_append_of_some {fs gs : List (String × JValue)} {k : String}
    {v : JValue} (h : lookupField fs k = some v) :
    lookupField (fs ++ gs) k = some v := by
  rw [lookupField_append, h]

/-- Inserting a key no entry of the dict carries appends it. -/
theorem dictInsert_fresh {d : List (String × JValue)} {k : String} {v : JValue}
    (h : k ∉ d.map Prod.fst) : dictInsert d k v = d ++ [(k, v)] := by
  unfold dictInsert
  rw [if_neg]
  rw [lookupField_eq_none.mpr h]
  simp

theorem exc_bind_ok {α β : Type} (a : α) (f : α → Except PyErr β) :
    (Except.ok a >>= f) = f a := rfl

theorem exc_map_ok {α β : Type} (a : α) (f : α → β) :
    (Except.ok a : Except PyErr α).map f = Except.ok (f a) := rfl

/-- A mapM over Except whose body succeeds pointwise is the ok of the map. -/
theorem mapM_ok {α β : Type} {f : α → Except PyErr β} {g : α → β} :
    ∀ {l : List α}, (∀ x ∈ l, f x = .ok (g x)) → l.mapM f = .ok (l.map g)
  | [], _ => rfl
  | x :: xs, h => by
    rw [List.mapM_cons, h x (List.mem_cons_self x xs)]
    rw [mapM_ok fun y hy => h y (List.mem_cons_of_mem x hy)]
    rfl

theorem toStrList_eq_some :
    ∀ {vs : List JValue} {ss : List String},
      toStrList vs = some ss → vs = ss.map JValue.str := by
  intro vs
  induction vs with
  | nil =>
    intro ss h
    simp [toStrList] at h
    simp [← h]
  | cons v rest ih =>
    intro ss h
    cases v <;> simp [toStrList] at h
    obtain ⟨ss', hss', rfl⟩ := h
    simp [ih hss']

theorem toStrList_map_str (ss : List String) :
    toStrList (ss.map JValue.str) = some ss := by
  induction ss with
  | nil => rfl
  | cons s rest ih => simp [toStrList, ih]

/-- pySetAdd on a list of string values is a set-insert of the string. -/
theorem pySetAdd_str (ss : List String) (q : String) :
    pySetAdd (ss.map JValue.str) (.str q) =
      (if q ∈ ss then ss else ss ++ [q]).map JValue.str := by
  unfold pySetAdd
  by_cases h : q ∈ ss
  · rw [if_pos, if_pos h]
    rw [List.any_eq_true]
    exact ⟨.str q, List.mem_map_of_mem _ h, by simp [JValue.beq]⟩
  · rw [if_neg, if_neg h]
    · simp
    · rw [List.any_eq_true]
      rintro ⟨v, hv, hbeq⟩
      rw [JValue.beq_str_iff] at hbeq
      subst hbeq
      rcases List.mem_map.mp hv with ⟨a, ha, hEq⟩
      injection hEq with hEq'
      subst hEq'
      exact h ha

/-! ### Characterizing the question-id collection pass -/

/-- The pure string version of folding Python set.add over a batch of ids. -/
def setFoldStr (qs acc : List String) : List String :=
  qs.foldl (fun a q => if q ∈ a then a else a ++ [q]) acc

theorem setFoldStr_nil (acc : List String) : setFoldStr [] acc = acc := rfl

theorem setFoldStr_cons (q : String) (qs acc : List String) :
    setFoldStr (q :: qs) acc = setFoldStr qs (if q ∈ acc then acc else acc ++ [q]) := rfl

theorem setFoldStr_nodup :
    ∀ (qs acc : List String), acc.Nodup → (setFoldStr qs acc).Nodup
  | [], _, h => h
  | q :: qs, acc, h => by
    rw [setFoldStr_cons]
    by_cases hq : q ∈ acc
    · rw [if_pos hq]
      exact setFoldStr_nodup qs acc h
    · rw [if_neg hq]
      refine setFoldStr_nodup qs _ ?_
      simp [List.nodup_append, h, hq]

theorem setFoldStr_mem :
    ∀ (qs acc : List String) (t : String),
      t ∈ setFoldStr qs acc ↔ t ∈ acc ∨ t ∈ qs
  | [], acc, t => by simp [setFoldStr_nil]
  | q :: qs, acc, t => by
    rw [setFoldStr_cons]
    by_cases hq : q ∈ acc
    · rw [if_pos hq, setFoldStr_mem qs acc t]
      constructor
      · rintro (h | h)
        · exact .inl h
        · exact .inr (List.mem_cons_of_mem q h)
      · rintro (h | h)
        · exact .inl h
        · rcases List.mem_cons.mp h with rfl | h'
          · exact .inl hq
          · exact .inr h'
    · rw [if_neg hq, setFoldStr_mem qs _ t]
      simp only [List.mem_append, List.mem_singleton, List.mem_cons]
      tauto

theorem strFold_setAdd :
    ∀ (qs ss : List String),
      qs.foldl (fun a q => pySetAdd a (.str q)) (ss.map JValue.str) =
        (setFoldStr qs ss).map JValue.str
  | [], _ => rfl
  | q :: qs, ss => by
    rw [List.foldl_cons, pySetAdd_str, setFoldStr_cons]
    exact strFold_setAdd qs (if q ∈ ss then ss else ss ++ [q])

/-- A well-formed item yields its question id through subscription. -/
theorem pyIndexStr_qid {q : JValue} (h : wfItem q = true) :
    ∃ s, pyIndexStr q "question_id" = .ok (.str s) ∧ itemQid q = some s := by
  cases q <;> simp [wfItem] at h
  next fs =>
    rcases hl : lookupField fs "question_id" with _ | v
    · rw [hl] at h
      simp at h
    · rw [hl] at h
      cases v <;> simp at h
      next s => exact ⟨s, by simp [pyIndexStr, hl], by simp [itemQid, hl]⟩

theorem exc_pure {α : Type} (a : α) : (pure a : Except PyErr α) = .ok a := rfl

theorem exc_bind_err {α β : Type} (e : PyErr) (f : α → Except PyErr β) :
    (Except.error e >>= f) = .error e := rfl

/-- The item fold of collectQuestionIds, on well-formed items, is the pure
set-fold of the items' question ids. -/
theorem collect_items_ok :
    ∀ (items : List JValue) (ss : List String), items.all wfItem = true →
      (items.foldlM collectItemStep (ss.map JValue.str) :
        Except PyErr (List JValue)) =
      .ok ((setFoldStr (items.filterMap itemQid) ss).map JValue.str)
  | [], ss, _ => rfl
  | q :: items, ss, h => by
    rw [List.all_cons, Bool.and_eq_true] at h
    obtain ⟨s, hidx, hqid⟩ := pyIndexStr_qid h.1
    rw [List.foldlM_cons,
      show collectItemStep (ss.map JValue.str) q =
        .ok (pySetAdd (ss.map JValue.str) (.str s)) from by
        simp [collectItemStep, hidx, exc_bind_ok, exc_pure],
      exc_bind_ok, pySetAdd_str, List.filterMap_cons_some hqid, setFoldStr_cons]
    exact collect_items_ok items (if s ∈ ss then ss else ss ++ [s]) h.2

theorem wfDoc_items_all {d : JValue} (h : wfDoc d = true) :
    (docItems d).all wfItem = true := by
  cases d <;> simp [wfDoc] at h
  next fs =>
    rcases hl : lookupField fs "evaluations" with _ | v
    · simp [docItems, hl]
    · rw [hl] at h
      cases v <;> simp at h
      next items => simpa [docItems, hl] using h.2

/-- The evaluations field read of a well-formed document, step by step. -/
theorem doc_evals_get {d : JValue} (h : wfDoc d = true) :
    ∃ ev, pyGet d "evaluations" (.arr []) = .ok ev ∧
      pyIterElems ev = .ok (docItems d) := by
  cases d <;> simp [wfDoc] at h
  next fs =>
    rcases hl : lookupField fs "evaluations" with _ | v
    · exact ⟨.arr [], by simp [pyGet, hl], by simp [pyIterElems, docItems, hl]⟩
    · rw [hl] at h
      cases v <;> simp at h
      next items =>
        exact ⟨.arr items, by simp [pyGet, hl], by simp [pyIterElems, docItems, hl]⟩

/-- The accumulated pure collection of question ids over the documents. -/
def collectedIds (evaluations : List (String × JValue)) (ss : List String) :
    List String :=
  evaluations.foldl
    (fun acc p => setFoldStr ((docItems p.2).filterMap itemQid) acc) ss

theorem collectedIds_nodup :
    ∀ (evals : List (String × JValue)) (ss : List String), ss.Nodup →
      (collectedIds evals ss).Nodup
  | [], _, h => h
  | _ :: rest, ss, h =>
    collectedIds_nodup rest _ (setFoldStr_nodup _ ss h)

theorem collectedIds_mem :
    ∀ (evals : List (String × JValue)) (ss : List String) (t : String),
      t ∈ collectedIds evals ss ↔ t ∈ ss ∨ t ∈ allQidsFlat evals
  | [], ss, t => by simp [collectedIds, allQidsFlat]
  | p :: rest, ss, t => by
    show t ∈ collectedIds rest _ ↔ _
    rw [collectedIds_mem rest _ t, setFoldStr_mem]
    simp only [allQidsFlat, List.map_cons, List.flatten_cons, List.mem_append]
    tauto

theorem collect_go :
    ∀ (evals : List (String × JValue)) (ss : List String),
      (∀ p ∈ evals, wfDoc p.2 = true) →
      (evals.foldlM collectDocStep (ss.map JValue.str) :
        Except PyErr (List JValue)) =
      .ok ((collectedIds evals ss).map JValue.str)
  | [], _, _ => rfl
  | p :: rest, ss, h => by
    have hd := h p (List.mem_cons_self p rest)
    obtain ⟨ev, he1, he2⟩ := doc_evals_get hd
    rw [List.foldlM_cons,
      show collectDocStep (ss.map JValue.str) p =
          .ok ((setFoldStr ((docItems p.2).filterMap itemQid) ss).map JValue.str) from by
        simp only [collectDocStep, he1, exc_bind_ok, he2]
        exact collect_items_ok (docItems p.2) ss (wfDoc_items_all hd),
      exc_bind_ok]
    exact collect_go rest _ fun q hq => h q (List.mem_cons_of_mem p hq)

/-- collectQuestionIds on well-formed documents: the ok of the collected
string ids, duplicate-free, whose members are exactly the question ids
occurring in some document. -/
theorem collectQuestionIds_ok {evals : List (String × JValue)}
    (h : ∀ p ∈ evals, wfDoc p.2 = true) :
    collectQuestionIds evals = .ok ((collectedIds evals []).map JValue.str) := by
  have h2 := collect_go evals [] h
  rw [List.map_nil] at h2
  exact h2

/-- The sorted collected ids are exactly the spec's sorted union. -/
theorem sorted_collected_eq (evals : List (String × JValue)) :
    pySortStrs (collectedIds evals []) = specSortedUnion evals := by
  refine pySortStrs_congr (collectedIds_nodup evals [] List.nodup_nil)
    (List.nodup_dedup _) fun s => ?_
  rw [collectedIds_mem, List.mem_dedup]
  simp

/-! ### Characterizing the row builder -/

theorem modelRowCells_keys (p : String × JValue) (sts : List String) (qid : String) :
    (modelRowCells p sts qid).map Prod.fst = modelColNames p.1 sts := by
  simp [modelRowCells, modelColNames]

/-- The first-match scan on well-formed items agrees with the pure first
match. -/
theorem findQuestion_ok :
    ∀ {items : List JValue}, items.all wfItem = true → ∀ (qid : String),
      findQuestion items qid = .ok (findQuestionPure items qid)
  | [], _, _ => rfl
  | q :: items, h, qid => by
    rw [List.all_cons, Bool.and_eq_true] at h
    obtain ⟨s, hidx, hqid⟩ := pyIndexStr_qid h.1
    show (do
      let v ← pyIndexStr q "question_id"
      if v.beq (.str qid) then pure (some q) else findQuestion items qid) = _
    rw [hidx, exc_bind_ok]
    unfold findQuestionPure
    rw [List.find?_cons]
    by_cases hs : s = qid
    · subst hs
      simp only [JValue.beq, hqid, beq_self_eq_true, if_true]
      rfl
    · have hbeq : (JValue.str s).beq (.str qid) = false := by
        simp [JValue.beq, hs]
      rw [hbeq]
      have hpred : (match itemQid q with
          | some s => s == qid
          | none => false) = false := by
        rw [hqid]
        simpa using hs
      rw [hpred]
      simp only [Bool.false_eq_true, if_false]
      exact findQuestion_ok h.2 qid

/-- A well-formed item is a non-empty object, hence truthy. -/
theorem wfItem_truthy {q : JValue} (h : wfItem q = true) : pyTruthy q = true := by
  cases q <;> simp [wfItem] at h
  next fs =>
    cases fs with
    | nil => simp [lookupField] at h
    | cons p rest => simp [pyTruthy]

theorem findQuestionPure_mem {items : List JValue} {qid : String} {it : JValue}
    (h : findQuestionPure items qid = some it) : it ∈ items :=
  List.mem_of_find?_eq_some h

theorem findQuestionPure_qid {items : List JValue} {qid : String} {it : JValue}
    (h : findQuestionPure items qid = some it) : itemQid it = some qid := by
  have hp := List.find?_some h
  rcases hq : itemQid it with _ | s
  · rw [hq] at hp
    simp at hp
  · rw [hq] at hp
    exact congrArg some (eq_of_beq hp)

/-- Reading a well-formed document's evaluator through the .get chain
succeeds and yields the recorded evaluator (or the sentinel). -/
theorem doc_evaluator_field {d : JValue} (h : wfDoc d = true) :
    (do
      let meta ← pyGet d "evaluation_metadata" (.obj [])
      pyGet meta "evaluator" (.str "unknown") : Except PyErr JValue) =
    .ok (docEvaluator d) := by
  cases d <;> simp [wfDoc] at h
  next fs =>
    rcases hl : lookupField fs "evaluation_metadata" with _ | v
    · have hget : pyGet (JValue.obj fs) "evaluation_metadata" (.obj []) =
          .ok (.obj []) := by simp [pyGet, hl]
      rw [hget, exc_bind_ok]
      simp [pyGet, docEvaluator, hl, lookupField]
    · rw [hl] at h
      rcases v with _ | _ | _ | _ | _ | mf <;> simp [isStrMapOpt] at h
      have hget : pyGet (JValue.obj fs) "evaluation_metadata" (.obj []) =
          .ok (.obj mf) := by simp [pyGet, hl]
      rw [hget, exc_bind_ok]
      simp [pyGet, docEvaluator, hl]

/-- When the first match for the id carries a scores object, the cell of
each score type is that object's entry, defaulted to null. -/
theorem specCell_of_found {d : JValue} {qid : String} {fs : List (String × JValue)}
    {sc : List (String × JValue)}
    (hfind : findQuestionPure (docItems d) qid = some (.obj fs))
    (hsc : lookupField fs "scores" = some (.obj sc)) (s : String) :
    specCell d qid s = (lookupField sc s).getD .null := by
  simp [specCell, hfind, hsc]

/-- When the document has no item for the id, every cell is null. -/
theorem specCell_of_none {d : JValue} {qid : String}
    (hfind : findQuestionPure (docItems d) qid = none) (s : String) :
    specCell d qid s = .null := by
  simp [specCell, hfind]

/-- Folding fresh dict insertions appends the cells in order. -/
theorem foldl_dictInsert_append :
    ∀ (sts : List String) (rd : Row) (m : String) (f : String → JValue),
      ((rd.map Prod.fst) ++ sts.map fun s => m ++ "_" ++ s).Nodup →
      sts.foldl (fun rd s => dictInsert rd (m ++ "_" ++ s) (f s)) rd =
        rd ++ sts.map fun s => (m ++ "_" ++ s, f s)
  | [], rd, _, _, _ => by simp
  | s :: sts, rd, m, f, h => by
    have hfresh : (m ++ "_" ++ s) ∉ rd.map Prod.fst := by
      intro hmem
      rcases List.nodup_append.mp h with ⟨_, _, hdisj⟩
      exact hdisj hmem (List.mem_cons_self _ _)
    rw [List.foldl_cons, dictInsert_fresh hfresh]
    have h' : (((rd ++ [(m ++ "_" ++ s, f s)]).map Prod.fst) ++
        sts.map fun s => m ++ "_" ++ s).Nodup := by
      rw [List.map_append]
      simpa [List.append_assoc] using h
    rw [foldl_dictInsert_append sts (rd ++ [(m ++ "_" ++ s, f s)]) m f h']
    simp

/-- The monadic score fold over an object-valued scores mapping succeeds
pointwise. -/
theorem foldlM_scores_ok :
    ∀ (sts : List String) (rd : Row) (m : String) (sc : List (String × JValue)),
      (sts.foldlM
        (fun rd s => do
          let v ← pyGet (.obj sc) s .null
          pure (dictInsert rd (m ++ "_" ++ s) v)) rd : Except PyErr Row) =
      .ok (sts.foldl
        (fun rd s => dictInsert rd (m ++ "_" ++ s) ((lookupField sc s).getD .null))
        rd)
  | [], _, _, _ => rfl
  | s :: sts, rd, m, sc => by
    rw [List.foldlM_cons]
    have hget : pyGet (.obj sc) s .null = .ok ((lookupField sc s).getD .null) := rfl
    rw [hget, exc_bind_ok, exc_pure, exc_bind_ok, List.foldl_cons]
    exact foldlM_scores_ok sts _ m sc

theorem wfItemScores_scores {it : JValue} (h : wfItemScores it = true) :
    ∃ fs sc, it = .obj fs ∧ lookupField fs "scores" = some (.obj sc) ∧
      pyIndexStr it "scores" = .ok (.obj sc) := by
  cases it <;> simp [wfItemScores] at h
  next fs =>
    rcases hl : lookupField fs "scores" with _ | v
    · rw [hl] at h
      simp at h
    · rw [hl] at h
      cases v <;> simp at h
      next sc => exact ⟨fs, sc, rfl, hl, by simp [pyIndexStr, hl]⟩

/-- The metadata .get chain of a well-formed document, step by step. -/
theorem doc_metadata_get {d : JValue} (h : wfDoc d = true) :
    ∃ mv, pyGet d "evaluation_metadata" (.obj []) = .ok mv ∧
      pyGet mv "evaluator" (.str "unknown") = .ok (docEvaluator d) := by
  cases d <;> simp [wfDoc] at h
  next fs =>
    rcases hl : lookupField fs "evaluation_metadata" with _ | v
    · exact ⟨.obj [], by simp [pyGet, hl], by simp [pyGet, docEvaluator, hl, lookupField]⟩
    · rw [hl] at h
      rcases v with _ | _ | _ | _ | _ | mf <;> simp [isStrMapOpt] at h
      exact ⟨.obj mf, by simp [pyGet, hl], by simp [pyGet, docEvaluator, hl]⟩

/-- One step of the row builder on a well-formed document appends that
document's cells. -/
theorem buildRowStep_ok (sts : List String) (qid : String) (rd : Row)
    (p : String × JValue) (hwf : wfDoc p.2 = true)
    (hms : ∀ it, findQuestionPure (docItems p.2) qid = some it →
      wfItemScores it = true)
    (hnd : ((rd.map Prod.fst) ++ modelColNames p.1 sts).Nodup) :
    buildRowStep sts qid rd p = .ok (rd ++ modelRowCells p sts qid) := by
  obtain ⟨mv, hm1, hm2⟩ := doc_metadata_get hwf
  obtain ⟨ev, he1, he2⟩ := doc_evals_get hwf
  have hndhead : ((rd.map Prod.fst) ++
      ((p.1 ++ "_evaluator") :: sts.map fun s => p.1 ++ "_" ++ s)).Nodup := by
    simpa [modelColNames] using hnd
  have hfresh : (p.1 ++ "_evaluator") ∉ rd.map Prod.fst := by
    intro hmem
    rcases List.nodup_append.mp hndhead with ⟨_, _, hdisj⟩
    exact hdisj hmem (List.mem_cons_self _ _)
  have hnd2 : (((rd ++ [(p.1 ++ "_evaluator", docEvaluator p.2)]).map Prod.fst) ++
      sts.map fun s => p.1 ++ "_" ++ s).Nodup := by
    rw [List.map_append]
    simpa [List.append_assoc] using hndhead
  unfold buildRowStep
  show (do
    let meta ← pyGet p.2 "evaluation_metadata" (.obj [])
    let evaluator ← pyGet meta "evaluator" (.str "unknown")
    let evs ← pyGet p.2 "evaluations" (.arr [])
    let items ← pyIterElems evs
    let question_data ← findQuestion items qid
    match question_data with
    | some item =>
      if pyTruthy item then do
        let scores ← pyIndexStr item "scores"
        sts.foldlM
          (fun rd' s => do
            let v ← pyGet scores s .null
            pure (dictInsert rd' (p.1 ++ "_" ++ s) v))
          (dictInsert rd (p.1 ++ "_evaluator") evaluator)
      else
        pure (sts.foldl
          (fun rd' s => dictInsert rd' (p.1 ++ "_" ++ s) .null)
          (dictInsert rd (p.1 ++ "_evaluator") evaluator))
    | none =>
      pure (sts.foldl
        (fun rd' s => dictInsert rd' (p.1 ++ "_" ++ s) .null)
        (dictInsert rd (p.1 ++ "_evaluator") evaluator)) :
    Except PyErr Row) = .ok (rd ++ modelRowCells p sts qid)
  simp only [hm1, hm2, he1, he2, exc_bind_ok]
  rw [findQuestion_ok (wfDoc_items_all hwf) qid]
  simp only [exc_bind_ok]
  rcases hfind : findQuestionPure (docItems p.2) qid with _ | it
  · simp only [dictInsert_fresh hfresh,
      foldl_dictInsert_append sts _ p.1 (fun _ => .null) hnd2, exc_pure]
    simp [modelRowCells, specCell_of_none hfind, List.append_assoc]
  · have hitem : wfItem it = true := by
      have hall := wfDoc_items_all hwf
      rw [List.all_eq_true] at hall
      exact hall it (findQuestionPure_mem hfind)
    obtain ⟨fs, sc, rfl, hsc, hidxsc⟩ := wfItemScores_scores (hms _ hfind)
    simp only [wfItem_truthy hitem, if_true, hidxsc, exc_bind_ok,
      dictInsert_fresh hfresh, foldlM_scores_ok sts _ p.1 sc,
      foldl_dictInsert_append sts _ p.1 _ hnd2]
    have hcells : ∀ s, specCell p.2 qid s = (lookupField sc s).getD .null :=
      specCell_of_found hfind hsc
    simp [modelRowCells, hcells, List.append_assoc]

/-- Folding the row builder over the documents appends each document's
cells in order. -/
theorem buildRow_go :
    ∀ (evals : List (String × JValue)) (rd : Row) (sts : List String)
      (qid : String),
      (∀ p ∈ evals, wfDoc p.2 = true) →
      (∀ p ∈ evals, ∀ it, findQuestionPure (docItems p.2) qid = some it →
        wfItemScores it = true) →
      ((rd.map Prod.fst) ++
        (evals.map fun p => modelColNames p.1 sts).flatten).Nodup →
      (evals.foldlM (buildRowStep sts qid) rd : Except PyErr Row) =
        .ok (rd ++ (evals.map fun p => modelRowCells p sts qid).flatten)
  | [], rd, _, _, _, _, _ => by simp [exc_pure]
  | p :: rest, rd, sts, qid, hwf, hms, hnd => by
    have hnd' : ((rd.map Prod.fst) ++
        (modelColNames p.1 sts ++
          (rest.map fun p => modelColNames p.1 sts).flatten)).Nodup := by
      simpa using hnd
    have hndhead : ((rd.map Prod.fst) ++ modelColNames p.1 sts).Nodup := by
      refine List.Nodup.sublist ?_ hnd'
      rw [← List.append_assoc]
      exact List.sublist_append_left _ _
    rw [List.foldlM_cons,
      buildRowStep_ok sts qid rd p (hwf p (List.mem_cons_self p rest))
        (hms p (List.mem_cons_self p rest)) hndhead,
      exc_bind_ok]
    have hnd2 : (((rd ++ modelRowCells p sts qid).map Prod.fst) ++
        (rest.map fun p => modelColNames p.1 sts).flatten).Nodup := by
      rw [List.map_append, modelRowCells_keys]
      simpa [List.append_assoc] using hnd'
    rw [buildRow_go rest (rd ++ modelRowCells p sts qid) sts qid
      (fun q hq => hwf q (List.mem_cons_of_mem p hq))
      (fun q hq => hms q (List.mem_cons_of_mem p hq)) hnd2]
    simp [List.append_assoc]

/-- The row builder on well-formed documents with collision-free column
names produces exactly the laid-out row. -/
theorem buildRow_eq (evals : List (String × JValue)) (sts : List String)
    (qid : String) (hwf : ∀ p ∈ evals, wfDoc p.2 = true)
    (hms : ∀ p ∈ evals, ∀ it, findQuestionPure (docItems p.2) qid = some it →
      wfItemScores it = true)
    (hnd : (tableColNames (evals.map Prod.fst) sts).Nodup) :
    buildRow evals sts qid = .ok (specRow evals sts qid) := by
  have hnd' : (([("question_id", JValue.str qid)].map
      (Prod.fst (β := JValue))) ++
      (evals.map fun p => modelColNames p.1 sts).flatten).Nodup := by
    simpa [tableColNames, List.map_map, Function.comp] using hnd
  unfold buildRow
  rw [buildRow_go evals [("question_id", .str qid)] sts qid hwf hms hnd']
  simp [specRow]

/-- create_comparison_table on well-formed documents whose first matches
carry scores, with collision-free column names: one row per id of the
sorted union, each row laid out as specRow. -/
theorem create_comparison_table_ok (evals : List (String × JValue))
    (sts : List String) (hwf : ∀ p ∈ evals, wfDoc p.2 = true)
    (hms : ∀ p ∈ evals, wfFirstMatches p.2 (specSortedUnion evals) = true)
    (hnd : (tableColNames (evals.map Prod.fst) sts).Nodup) :
    create_comparison_table evals sts =
      .ok ((specSortedUnion evals).map (specRow evals sts)) := by
  unfold create_comparison_table
  rw [collectQuestionIds_ok hwf, exc_bind_ok]
  show pySortedIds _ >>= _ = _
  rw [show pySortedIds ((collectedIds evals []).map JValue.str) =
      .ok (pySortStrs (collectedIds evals [])) from by
    simp [pySortedIds, toStrList_map_str]]
  rw [exc_bind_ok, sorted_collected_eq]
  refine mapM_ok fun q hq => ?_
  refine buildRow_eq evals sts q hwf (fun p hp it hit => ?_) hnd
  have := hms p hp
  rw [wfFirstMatches, List.all_eq_true] at this
  have hthis := this q hq
  rw [hit] at hthis
  exact hthis

/-! ### Reading cells back out of the built rows -/

/-- In a duplicate-key-free association list, lookup retrieves any
member's value. -/
theorem lookupField_of_nodup_mem :
    ∀ {r : Row}, (r.map Prod.fst).Nodup → ∀ {k : String} {v : JValue},
      (k, v) ∈ r → lookupField r k = some v
  | [], _, _, _, h => by simp at h
  | (k', v') :: rest, hnd, k, v, h => by
    rw [List.map_cons, List.nodup_cons] at hnd
    rcases List.mem_cons.mp h with heq | hmem
    · injection heq with h1 h2
      subst h1
      subst h2
      simp [lookupField]
    · have hk : k' ≠ k := by
        intro heq
        subst heq
        exact hnd.1 (List.mem_map.mpr ⟨(k', v), hmem, rfl⟩)
      simp only [lookupField, if_neg hk]
      exact lookupField_of_nodup_mem hnd.2 hmem

theorem specRow_keys (evals : List (String × JValue)) (sts : List String)
    (qid : String) :
    (specRow evals sts qid).map Prod.fst = tableColNames (evals.map Prod.fst) sts := by
  have hcomp : (List.map (Prod.fst (β := JValue)) ∘ fun p => modelRowCells p sts qid) =
      ((fun m => modelColNames m sts) ∘ Prod.fst) := by
    funext p
    exact modelRowCells_keys p sts qid
  simp [specRow, tableColNames, List.map_flatten, List.map_map, hcomp]

theorem specRow_qid (evals : List (String × JValue)) (sts : List String)
    (qid : String) :
    lookupField (specRow evals sts qid) "question_id" = some (.str qid) := by
  simp [specRow, lookupField]

theorem specRow_evaluator {evals : List (String × JValue)} {sts : List String}
    {qid : String} (hnd : (tableColNames (evals.map Prod.fst) sts).Nodup)
    {p : String × JValue} (hp : p ∈ evals) :
    lookupField (specRow evals sts qid) (p.1 ++ "_evaluator") =
      some (docEvaluator p.2) := by
  refine lookupField_of_nodup_mem ?_ ?_
  · rw [specRow_keys]
    exact hnd
  · refine List.mem_cons_of_mem _ (List.mem_flatten.mpr ⟨modelRowCells p sts qid, ?_, ?_⟩)
    · exact List.mem_map_of_mem _ hp
    · exact List.mem_cons_self _ _

theorem specRow_cell {evals : List (String × JValue)} {sts : List String}
    {qid : String} (hnd : (tableColNames (evals.map Prod.fst) sts).Nodup)
    {p : String × JValue} (hp : p ∈ evals) {s : String} (hs : s ∈ sts) :
    lookupField (specRow evals sts qid) (p.1 ++ "_" ++ s) =
      some (specCell p.2 qid s) := by
  refine lookupField_of_nodup_mem ?_ ?_
  · rw [specRow_keys]
    exact hnd
  · refine List.mem_cons_of_mem _ (List.mem_flatten.mpr ⟨modelRowCells p sts qid, ?_, ?_⟩)
    · exact List.mem_map_of_mem _ hp
    · exact List.mem_cons_of_mem _
        (List.mem_map_of_mem (fun s => (p.1 ++ "_" ++ s, specCell p.2 qid s)) hs)

/-! ### The DataFrame over the built rows -/

theorem dedup_flatten_replicate {names : List String} (hnd : names.Nodup) :
    ∀ n : Nat, ((List.replicate (n + 1) names).flatten).dedup = names := by
  intro n
  induction n with
  | zero => simpa using hnd.dedup
  | succ m ih =>
    rw [List.replicate_succ, List.flatten_cons]
    rw [List.Subset.dedup_append_right, ih]
    intro a ha
    rw [List.replicate_succ, List.flatten_cons]
    exact List.mem_append_left _ ha

/-- The frame over rows of identical layout has exactly those columns. -/
theorem pdDataFrame_cols {qs : List String} {f : String → Row}
    {names : List String} (hkeys : ∀ q ∈ qs, (f q).map Prod.fst = names)
    (hne : qs ≠ []) (hnd : names.Nodup) :
    (pdDataFrame (qs.map f)).cols = names := by
  show (((qs.map f).map fun r => r.map Prod.fst).flatten).dedup = names
  have : (qs.map f).map (fun r => r.map Prod.fst) = qs.map fun _ => names := by
    rw [List.map_map]
    exact List.map_congr_left fun q hq => hkeys q hq
  rw [this, List.map_const']
  rcases qs with _ | ⟨q, rest⟩
  · exact absurd rfl hne
  · exact dedup_flatten_replicate hnd rest.length

/-! ### Characterizing schema extraction -/

/-- The Schema as the spec describes it, read structurally from a
top-level object's fields: metadata keys if present else empty, criteria
keys unioned with the scores keys of the first evaluations item, the
first item's keys. -/
def schema_per_spec (fs : List (String × JValue)) : Schema where
  score_types :=
    (match lookupField fs "evaluation_criteria" with
      | some (.obj cf) => (cf.map Prod.fst).toFinset
      | _ => ∅) ∪
    (match lookupField fs "evaluations" with
      | some (.arr (.obj efs :: _)) =>
        match lookupField efs "scores" with
        | some (.obj sc) => (sc.map Prod.fst).toFinset
        | _ => ∅
      | _ => ∅)
  metadata_fields :=
    match lookupField fs "evaluation_metadata" with
    | some (.obj mf) => (mf.map Prod.fst).toFinset
    | _ => ∅
  evaluation_fields :=
    match lookupField fs "evaluations" with
    | some (.arr (.obj efs :: _)) => (efs.map Prod.fst).toFinset
    | _ => ∅

theorem isStrMapOpt_cases {o : Option JValue} (h : isStrMapOpt o = true) :
    o = none ∨ ∃ m, o = some (.obj m) := by
  rcases o with _ | v
  · exact .inl rfl
  · cases v <;> simp [isStrMapOpt] at h
    next m => exact .inr ⟨m, rfl⟩

/-- The shapes the evaluations field of a schema-well-formed document
can take. -/
theorem wfEvals_cases {fs : List (String × JValue)}
    (h3 : (match lookupField fs "evaluations" with
      | none => true
      | some (.arr []) => true
      | some (.arr (e :: _)) =>
        match e with
        | .obj efs => isStrMapOpt (lookupField efs "scores")
        | _ => false
      | some _ => false) = true) :
    lookupField fs "evaluations" = none ∨
    lookupField fs "evaluations" = some (.arr []) ∨
    ∃ efs rest, lookupField fs "evaluations" = some (.arr (.obj efs :: rest)) ∧
      (lookupField efs "scores" = none ∨
        ∃ sc, lookupField efs "scores" = some (.obj sc)) := by
  rcases he : lookupField fs "evaluations" with _ | ev
  · exact .inl rfl
  · rw [he] at h3
    rcases ev with _ | _ | _ | _ | items | _
    · simp at h3
    · simp at h3
    · simp at h3
    · simp at h3
    · rcases items with _ | ⟨e0, rest⟩
      · exact .inr (.inl rfl)
      · rcases e0 with _ | _ | _ | _ | _ | efs <;> simp at h3
        exact .inr (.inr ⟨efs, rest, rfl, isStrMapOpt_cases h3⟩)
    · simp at h3

/-- extract_schema on a well-shaped top-level object computes the
spec-described schema. -/
theorem extract_schema_wf {fs : List (String × JValue)}
    (h : wfDocSchema (.obj fs) = true) :
    extract_schema (.obj fs) = .ok (schema_per_spec fs) := by
  have hparts : (isStrMapOpt (lookupField fs "evaluation_metadata") = true ∧
      isStrMapOpt (lookupField fs "evaluation_criteria") = true) ∧
      (match lookupField fs "evaluations" with
        | none => true
        | some (.arr []) => true
        | some (.arr (e :: _)) =>
          match e with
          | .obj efs => isStrMapOpt (lookupField efs "scores")
          | _ => false
        | some _ => false) = true := by
    simpa [wfDocSchema, Bool.and_eq_true] using h
  obtain ⟨⟨h1, h2⟩, h3⟩ := hparts
  rcases isStrMapOpt_cases h1 with hm | ⟨mf, hm⟩ <;>
    rcases isStrMapOpt_cases h2 with hc | ⟨cf, hc⟩ <;>
    rcases wfEvals_cases h3 with he | he | ⟨efs, rest, he, hs | ⟨sc, hs⟩⟩ <;>
    simp [*, extract_schema, schema_per_spec, pyContains, pyIndexStr, pyKeys,
      pyTruthy, pyIndexZero, exc_bind_ok, exc_pure]

/-! ### Claims about schema extraction and reconciliation -/

/-- C2: for every evaluation document given as a top-level mapping (with
its optional sub-fields of the documented shapes), extract_schema returns
metadata_fields = the key set of evaluation_metadata if present else
empty, evaluation_fields = the key set of the first element of
evaluations if present and non-empty else empty, and score_types = the
key set of evaluation_criteria (if present) unioned with the key set of
the first element's scores (if non-empty); and evaluation items after the
first are never consulted: replacing the tail of the evaluations list by
any other items leaves the result unchanged. -/
theorem C2_extract_schema_characterization :
    (∀ fs : List (String × JValue), wfDocSchema (.obj fs) = true →
      extract_schema (.obj fs) = .ok (schema_per_spec fs)) ∧
    (∀ (fs₁ fs₂ : List (String × JValue)) (e0 : JValue)
      (rest₁ rest₂ : List JValue),
      lookupField fs₁ "evaluation_metadata" = lookupField fs₂ "evaluation_metadata" →
      lookupField fs₁ "evaluation_criteria" = lookupField fs₂ "evaluation_criteria" →
      lookupField fs₁ "evaluations" = some (.arr (e0 :: rest₁)) →
      lookupField fs₂ "evaluations" = some (.arr (e0 :: rest₂)) →
      extract_schema (.obj fs₁) = extract_schema (.obj fs₂)) := by
  constructor
  · exact fun fs h => extract_schema_wf h
  · intro fs₁ fs₂ e0 rest₁ rest₂ hmd hcr he₁ he₂
    simp [extract_schema, pyContains, pyIndexStr, pyKeys, pyTruthy, pyIndexZero,
      exc_bind_ok, hmd, hcr, he₁, he₂]

/-- C2 witness: the characterization applied to the concrete document
with metadata {evaluator: alice}, criteria {correctness}, and one item
{question_id: Q1, scores: {correctness: 8}}. -/
theorem C2_extract_schema_characterization_witness :
    wfDocSchema (.obj [("evaluation_metadata", .obj [("evaluator", .str "alice")]),
      ("evaluation_criteria", .obj [("correctness", .null)]),
      ("evaluations", .arr [.obj [("question_id", .str "Q1"),
        ("scores", .obj [("correctness", .num 8)])]])]) = true ∧
    extract_schema (.obj [("evaluation_metadata", .obj [("evaluator", .str "alice")]),
      ("evaluation_criteria", .obj [("correctness", .null)]),
      ("evaluations", .arr [.obj [("question_id", .str "Q1"),
        ("scores", .obj [("correctness", .num 8)])]])]) =
      .ok (schema_per_spec [("evaluation_metadata", .obj [("evaluator", .str "alice")]),
        ("evaluation_criteria", .obj [("correctness", .null)]),
        ("evaluations", .arr [.obj [("question_id", .str "Q1"),
          ("scores", .obj [("correctness", .num 8)])]])]) :=
  ⟨rfl, C2_extract_schema_characterization.1 _ rfl⟩

/-- C8 counterexample: the claim "fails exactly when the top-level value
is not a mapping" is false in both directions: the top-level mapping
whose evaluation_metadata is the number 5 raises (AttributeError on
.keys()), while the non-mapping top-level empty list does not fail and
returns the empty schema. -/
theorem C8_counterexample :
    extract_schema (.obj [("evaluation_metadata", .num 5)]) =
      .error .attributeError ∧
    extract_schema (.arr []) = .ok ⟨∅, ∅, ∅⟩ :=
  ⟨rfl, rfl⟩

/-- C8 amended: extraction never fails on a top-level mapping whose
present sub-fields have the documented shapes (each absent sub-field
defaulting that schema component to empty); a mis-shaped sub-field of a
mapping can raise, and a non-mapping top-level is not specifically
rejected. -/
theorem C8_amended_no_failure_on_wf_mapping (d : JValue)
    (h : wfDocSchema d = true) : ∃ s, extract_schema d = .ok s := by
  cases d <;> simp [wfDocSchema] at h
  next fs =>
    exact ⟨schema_per_spec fs, extract_schema_wf (by simpa [wfDocSchema] using h)⟩

/-- C8 witness: the amended theorem applied to the empty mapping. -/
theorem C8_amended_witness :
    wfDocSchema (.obj []) = true ∧ ∃ s, extract_schema (.obj []) = .ok s :=
  ⟨rfl, C8_amended_no_failure_on_wf_mapping (.obj []) rfl⟩

theorem foldl_inter_mem (init : Finset String) (l : List Schema) (x : String) :
    x ∈ l.foldl (fun acc sch => acc ∩ sch.score_types) init ↔
      x ∈ init ∧ ∀ sch ∈ l, x ∈ sch.score_types := by
  induction l generalizing init with
  | nil => simp
  | cons sch rest ih =>
    rw [List.foldl_cons, ih]
    simp only [Finset.mem_inter, List.mem_cons]
    constructor
    · rintro ⟨⟨hx, hsch⟩, hrest⟩
      exact ⟨hx, fun s hs => by
        rcases hs with rfl | hs
        · exact hsch
        · exact hrest s hs⟩
    · rintro ⟨hx, hall⟩
      exact ⟨⟨hx, hall sch (.inl rfl)⟩, fun s hs => hall s (.inr hs)⟩

/-- C3: for a non-empty set of loaded documents, the common score-type
set computed by main is the intersection of the extracted schemas'
score_types, and intersecting with one further document's schema can only
shrink or preserve it. -/
theorem C3_common_score_types (docs : List JValue) (schemas : List Schema)
    (s0 : Schema) (rest : List Schema)
    (hextract : docs.mapM extract_schema = .ok schemas)
    (hne : schemas = s0 :: rest) :
    (∀ x : String, x ∈ commonScoreTypes schemas ↔
      ∀ sch ∈ schemas, x ∈ sch.score_types) ∧
    ∀ extra : Schema, commonScoreTypes (schemas ++ [extra]) ⊆
      commonScoreTypes schemas := by
  subst hne
  constructor
  · intro x
    show x ∈ rest.foldl _ s0.score_types ↔ _
    rw [foldl_inter_mem]
    simp only [List.mem_cons]
    constructor
    · rintro ⟨hx0, hrest⟩ sch hs
      rcases hs with rfl | hs
      · exact hx0
      · exact hrest sch hs
    · rintro hall
      exact ⟨hall s0 (.inl rfl), fun sch hs => hall sch (.inr hs)⟩
  · intro extra
    show ((rest ++ [extra]).foldl _ s0.score_types) ⊆ rest.foldl _ s0.score_types
    rw [List.foldl_append]
    exact Finset.inter_subset_left

/-- C3 witness: the reconciliation characterization applied to the
single empty-object document. -/
theorem C3_common_score_types_witness :
    ([JValue.obj []].mapM extract_schema = .ok [(⟨∅, ∅, ∅⟩ : Schema)]) ∧
    ((∀ x : String, x ∈ commonScoreTypes [(⟨∅, ∅, ∅⟩ : Schema)] ↔
      ∀ sch ∈ [(⟨∅, ∅, ∅⟩ : Schema)], x ∈ sch.score_types) ∧
    ∀ extra : Schema, commonScoreTypes ([(⟨∅, ∅, ∅⟩ : Schema)] ++ [extra]) ⊆
      commonScoreTypes [(⟨∅, ∅, ∅⟩ : Schema)]) :=
  ⟨rfl, C3_common_score_types [.obj []] _ ⟨∅, ∅, ∅⟩ [] rfl rfl⟩

/-! ### Congruence of the build under dropped later duplicates -/

/-- The spec's concrete scenario, document doc1: items for Q1
(correctness 8) and Q2 (correctness 6), evaluated by alice. -/
def specDoc1 : JValue :=
  .obj [("evaluation_metadata", .obj [("evaluator", .str "alice")]),
    ("evaluations", .arr
      [.obj [("question_id", .str "Q1"), ("scores", .obj [("correctness", .num 8)])],
       .obj [("question_id", .str "Q2"), ("scores", .obj [("correctness", .num 6)])]])]

/-- The spec's concrete scenario, document doc2: items for Q1
(correctness 7, fluency 9) and Q3 (correctness 5), without metadata. -/
def specDoc2 : JValue :=
  .obj [("evaluations", .arr
    [.obj [("question_id", .str "Q1"),
       ("scores", .obj [("correctness", .num 7), ("fluency", .num 9)])],
     .obj [("question_id", .str "Q3"), ("scores", .obj [("correctness", .num 5)])]])]

/-- The spec's two-document scenario. -/
def specEvals : List (String × JValue) := [("doc1", specDoc1), ("doc2", specDoc2)]

/-- An item's recorded question id determines its subscription result. -/
theorem itemQid_pyIndex {it : JValue} {s : String} (h : itemQid it = some s) :
    pyIndexStr it "question_id" = .ok (.str s) := by
  cases it <;> simp [itemQid] at h
  next fs =>
    rcases hl : lookupField fs "question_id" with _ | v
    · rw [hl] at h
      simp at h
    · rw [hl] at h
      cases v <;> simp at h
      subst h
      simp [pyIndexStr, hl]

/-- Scanning an appended list first scans the prefix. -/
theorem findQuestion_append (xs ys : List JValue) (q : String) :
    findQuestion (xs ++ ys) q =
      match findQuestion xs q with
      | .ok none => findQuestion ys q
      | r => r := by
  induction xs with
  | nil => simp [findQuestion]
  | cons x xs ih =>
    show (do
      let v ← pyIndexStr x "question_id"
      if v.beq (.str q) then pure (some x) else findQuestion (xs ++ ys) q) = _
    rcases hx : pyIndexStr x "question_id" with e | v
    · simp [findQuestion, hx, exc_bind_err]
    · rcases hb : v.beq (.str q) with _ | _
      · simp only [findQuestion, hx, exc_bind_ok, hb, Bool.false_eq_true, if_false]
        exact ih
      · simp [findQuestion, hx, exc_bind_ok, hb, exc_pure]

/-- A scan that ends with no match rules the id out of every item's
question id. -/
theorem findQuestion_none_qids :
    ∀ {xs : List JValue} {q : String}, findQuestion xs q = .ok none →
      ∀ it ∈ xs, ∀ s, itemQid it = some s → s ≠ q
  | [], _, _, it, hit => by simp at hit
  | x :: xs, q, h, it, hit => by
    intro s hs heq
    rcases hx : pyIndexStr x "question_id" with e | v
    · rw [show findQuestion (x :: xs) q = .error e from by
        simp [findQuestion, hx, exc_bind_err]] at h
      exact absurd h (by simp)
    · rcases hb : v.beq (.str q) with _ | _
      · rw [show findQuestion (x :: xs) q = findQuestion xs q from by
          simp [findQuestion, hx, exc_bind_ok, hb]] at h
        rcases List.mem_cons.mp hit with rfl | hmem
        · rw [itemQid_pyIndex hs] at hx
          injection hx with hx'
          subst hx'
          subst heq
          simp [JValue.beq] at hb
        · exact findQuestion_none_qids h it hmem s hs heq
      · rw [show findQuestion (x :: xs) q = .ok (some x) from by
          simp [findQuestion, hx, exc_bind_ok, hb, exc_pure]] at h
        simp at h

/-- The first item in list order carrying the question id is the one the
pure first-match scan returns, whatever comes after it. -/
theorem findQuestionPure_first {it : JValue} {q : String} (fst rest : List JValue)
    (hit : itemQid it = some q) (hfst : ∀ x ∈ fst, itemQid x ≠ some q) :
    findQuestionPure (fst ++ it :: rest) q = some it := by
  induction fst with
  | nil => simp [findQuestionPure, hit]
  | cons x fst ih =>
    have hx : (match itemQid x with
        | some s => s == q
        | none => false) = false := by
      rcases hq : itemQid x with _ | s
      · rfl
      · have hne : s ≠ q := fun h => hfst x (List.mem_cons_self _ _) (h ▸ hq)
        simp [hne]
    rw [List.cons_append]
    show List.find? _ (x :: (fst ++ it :: rest)) = some it
    rw [List.find?_cons]
    simp only [hx]
    exact ih fun z hz => hfst z (List.mem_cons_of_mem x hz)

theorem pySetAdd_preserves {acc : List JValue} {v w : JValue} (h : v ∈ acc) :
    v ∈ pySetAdd acc w := by
  unfold pySetAdd
  split
  · exact h
  · exact List.mem_append_left _ h

theorem pySetAdd_adds_str (acc : List JValue) (s : String) :
    (JValue.str s) ∈ pySetAdd acc (.str s) := by
  unfold pySetAdd
  split
  next hany =>
    rw [List.any_eq_true] at hany
    obtain ⟨x, hx, hbeq⟩ := hany
    rw [JValue.beq_str_iff] at hbeq
    subst hbeq
    exact hx
  next => exact List.mem_append_right _ (List.mem_singleton.mpr rfl)

theorem pySetAdd_of_mem_str {acc : List JValue} {s : String}
    (h : (JValue.str s) ∈ acc) : pySetAdd acc (.str s) = acc := by
  unfold pySetAdd
  rw [if_pos]
  rw [List.any_eq_true]
  exact ⟨.str s, h, by simp [JValue.beq]⟩

/-- A successful item fold accumulates every item's question id and
keeps the members it was given. -/
theorem collect_fold_members :
    ∀ {items : List JValue} {acc acc' : List JValue},
      items.foldlM collectItemStep acc = .ok acc' →
      (∀ v ∈ acc, v ∈ acc') ∧
      (∀ it ∈ items, ∀ s, itemQid it = some s → (JValue.str s) ∈ acc')
  | [], acc, acc', h => by
    have h' : acc = acc' := by
      simpa [exc_pure] using h
    subst h'
    exact ⟨fun v hv => hv, fun it hit => by simp at hit⟩
  | q :: items, acc, acc', h => by
    rw [List.foldlM_cons] at h
    rcases hx : pyIndexStr q "question_id" with e | v
    · rw [show (collectItemStep acc q) = .error e from by
        simp [collectItemStep, hx, exc_bind_err], exc_bind_err] at h
      exact absurd h (by simp)
    · rw [show (collectItemStep acc q) = .ok (pySetAdd acc v) from by
        simp [collectItemStep, hx, exc_bind_ok, exc_pure], exc_bind_ok] at h
      obtain ⟨hkeep, hadds⟩ := collect_fold_members h
      refine ⟨fun w hw => hkeep w (pySetAdd_preserves hw), fun it hit s hs => ?_⟩
      rcases List.mem_cons.mp hit with rfl | hmem
      · rw [itemQid_pyIndex hs] at hx
        injection hx with hx'
        subst hx'
        exact hkeep _ (pySetAdd_adds_str acc s)
      · exact hadds it hmem s hs

/-- A fold over lists differing at one position where the step agrees. -/
theorem foldlM_congr_middle {α : Type} {f : α → (String × JValue) → Except PyErr α}
    (pre post : List (String × JValue)) (a b : String × JValue)
    (hstep : ∀ x : α, f x a = f x b) :
    ∀ x : α, ((pre ++ a :: post).foldlM f x : Except PyErr α) =
      (pre ++ b :: post).foldlM f x := by
  induction pre with
  | nil =>
    intro x
    rw [List.nil_append, List.nil_append, List.foldlM_cons, List.foldlM_cons,
      hstep x]
  | cons p pre ih =>
    intro x
    rw [List.cons_append, List.cons_append, List.foldlM_cons, List.foldlM_cons]
    rcases hx : f x p with e | y
    · rw [exc_bind_err, exc_bind_err]
    · rw [exc_bind_ok, exc_bind_ok]
      exact ih y

theorem mapM_congr {α β : Type} {f g : α → Except PyErr β} :
    ∀ {l : List α}, (∀ x ∈ l, f x = g x) → l.mapM f = l.mapM g
  | [], _ => rfl
  | x :: xs, h => by
    rw [List.mapM_cons, List.mapM_cons, h x (List.mem_cons_self x xs),
      mapM_congr fun y hy => h y (List.mem_cons_of_mem x hy)]

/-- Removing one item whose question id already occurs in an earlier
item does not change the id collection step of its document. -/
theorem collectDocStep_congr_mid {m : String} {fs₁ fs₂ : List (String × JValue)}
    {xs zs : List JValue} {y : JValue} {dup : String}
    (he₁ : lookupField fs₁ "evaluations" = some (.arr (xs ++ y :: zs)))
    (he₂ : lookupField fs₂ "evaluations" = some (.arr (xs ++ zs)))
    (hqid : itemQid y = some dup)
    (hmem : dup ∈ xs.filterMap itemQid) :
    ∀ acc, collectDocStep acc (m, .obj fs₁) = collectDocStep acc (m, .obj fs₂) := by
  intro acc
  simp only [collectDocStep]
  rw [show pyGet (m, JValue.obj fs₁).2 "evaluations" (.arr []) =
      .ok (.arr (xs ++ y :: zs)) from by simp [pyGet, he₁]]
  rw [show pyGet (m, JValue.obj fs₂).2 "evaluations" (.arr []) =
      .ok (.arr (xs ++ zs)) from by simp [pyGet, he₂]]
  rw [exc_bind_ok, exc_bind_ok,
    show pyIterElems (.arr (xs ++ y :: zs)) = .ok (xs ++ y :: zs) from rfl,
    show pyIterElems (.arr (xs ++ zs)) = .ok (xs ++ zs) from rfl,
    exc_bind_ok, exc_bind_ok, List.foldlM_append, List.foldlM_append]
  rcases hxs : xs.foldlM collectItemStep acc with e | acc'
  · rw [exc_bind_err, exc_bind_err]
  · rw [exc_bind_ok, exc_bind_ok, List.foldlM_cons]
    obtain ⟨x, hx', hqx⟩ := List.mem_filterMap.mp hmem
    have hstep : collectItemStep acc' y = .ok acc' := by
      rw [show collectItemStep acc' y = .ok (pySetAdd acc' (.str dup)) from by
        simp [collectItemStep, itemQid_pyIndex hqid, exc_bind_ok, exc_pure]]
      rw [pySetAdd_of_mem_str ((collect_fold_members hxs).2 x hx' dup hqx)]
    rw [hstep, exc_bind_ok]

/-- Removing one item whose question id already occurs in an earlier
item leaves every first-match scan over the list unchanged. -/
theorem findQuestion_congr_mid {xs zs : List JValue} {y : JValue} {dup : String}
    (hqid : itemQid y = some dup) (hmem : dup ∈ xs.filterMap itemQid)
    (q : String) :
    findQuestion (xs ++ y :: zs) q = findQuestion (xs ++ zs) q := by
  rw [findQuestion_append, findQuestion_append]
  rcases hx : findQuestion xs q with e | o
  · rfl
  · rcases o with _ | it
    · show findQuestion (y :: zs) q = findQuestion zs q
      obtain ⟨x, hx', hqx⟩ := List.mem_filterMap.mp hmem
      have hsq : dup ≠ q := findQuestion_none_qids hx x hx' dup hqx
      show (do
        let v ← pyIndexStr y "question_id"
        if v.beq (.str q) then pure (some y) else findQuestion zs q) = _
      rw [itemQid_pyIndex hqid, exc_bind_ok]
      rw [show (JValue.str dup).beq (.str q) = false from by
        simp [JValue.beq, hsq]]
      simp only [Bool.false_eq_true, if_false]
    · rfl

/-- Removing one item whose question id already occurs in an earlier
item does not change the row-building step for any question id. -/
theorem buildRowStep_congr_mid {m : String} {fs₁ fs₂ : List (String × JValue)}
    {xs zs : List JValue} {y : JValue} {dup : String}
    (sts : List String) (q : String)
    (hmd : lookupField fs₁ "evaluation_metadata" =
      lookupField fs₂ "evaluation_metadata")
    (he₁ : lookupField fs₁ "evaluations" = some (.arr (xs ++ y :: zs)))
    (he₂ : lookupField fs₂ "evaluations" = some (.arr (xs ++ zs)))
    (hqid : itemQid y = some dup)
    (hmem : dup ∈ xs.filterMap itemQid) :
    ∀ rd, buildRowStep sts q rd (m, .obj fs₁) = buildRowStep sts q rd (m, .obj fs₂) := by
  intro rd
  simp only [buildRowStep]
  rw [show pyGet (JValue.obj fs₁) "evaluation_metadata" (.obj []) =
      pyGet (JValue.obj fs₂) "evaluation_metadata" (.obj []) from by
    simp [pyGet, hmd]]
  rw [show pyGet (JValue.obj fs₁) "evaluations" (.arr []) =
      .ok (.arr (xs ++ y :: zs)) from by simp [pyGet, he₁]]
  rw [show pyGet (JValue.obj fs₂) "evaluations" (.arr []) =
      .ok (.arr (xs ++ zs)) from by simp [pyGet, he₂]]
  simp only [exc_bind_ok]
  rw [show pyIterElems (.arr (xs ++ y :: zs)) = .ok (xs ++ y :: zs) from rfl,
    show pyIterElems (.arr (xs ++ zs)) = .ok (xs ++ zs) from rfl]
  simp only [exc_bind_ok]
  rw [findQuestion_congr_mid hqid hmem q]

/-- C4: first match wins. (i) On any document set whose documents are
well shaped, every score cell of the table reads the scores of the FIRST
item in list order whose question id is the row's: whenever a document's
evaluations list splits as fst ++ item :: rest with the item carrying
the row's question id and no earlier item carrying it, each score cell
of that (question id, document) pair is the item's scores entry for the
score type (defaulted to null), whatever the later items hold. (ii)
Removing from any document's evaluations list any single item — at any
position — whose question id already occurs in an earlier item of that
list leaves the entire comparison table unchanged, so later duplicates
have no effect. -/
theorem C4_first_match_wins :
    (∀ (evals : List (String × JValue)) (sts : List String),
      (∀ p ∈ evals, wfDoc p.2 = true) →
      (∀ p ∈ evals, wfFirstMatches p.2 (specSortedUnion evals) = true) →
      (tableColNames (evals.map Prod.fst) sts).Nodup →
      create_comparison_table evals sts =
        .ok ((specSortedUnion evals).map (specRow evals sts)) ∧
      ∀ p ∈ evals, ∀ q ∈ specSortedUnion evals,
        ∀ (fst : List JValue) (fsi : List (String × JValue)) (rest : List JValue),
          docItems p.2 = fst ++ JValue.obj fsi :: rest →
          itemQid (.obj fsi) = some q →
          (∀ x ∈ fst, itemQid x ≠ some q) →
          ∀ sc : List (String × JValue),
            lookupField fsi "scores" = some (.obj sc) →
          ∀ s ∈ sts,
            lookupField (specRow evals sts q) (p.1 ++ "_" ++ s) =
              some ((lookupField sc s).getD .null)) ∧
    (∀ (pre post : List (String × JValue)) (m : String)
      (fs₁ fs₂ : List (String × JValue)) (xs zs : List JValue) (y : JValue)
      (sts : List String) (dup : String),
      lookupField fs₁ "evaluation_metadata" =
        lookupField fs₂ "evaluation_metadata" →
      lookupField fs₁ "evaluations" = some (.arr (xs ++ y :: zs)) →
      lookupField fs₂ "evaluations" = some (.arr (xs ++ zs)) →
      itemQid y = some dup →
      dup ∈ xs.filterMap itemQid →
      create_comparison_table (pre ++ (m, .obj fs₁) :: post) sts =
        create_comparison_table (pre ++ (m, .obj fs₂) :: post) sts) := by
  constructor
  · intro evals sts hwf hms hnd
    refine ⟨create_comparison_table_ok evals sts hwf hms hnd, ?_⟩
    intro p hp q hq fst fsi rest hdoc hitq hfst sc hsc s hs
    have hfind : findQuestionPure (docItems p.2) q = some (.obj fsi) := by
      rw [hdoc]
      exact findQuestionPure_first fst rest hitq hfst
    rw [specRow_cell hnd hp hs, specCell_of_found hfind hsc s]
  · intro pre post m fs₁ fs₂ xs zs y sts dup hmd he₁ he₂ hqid hmem
    unfold create_comparison_table
    show collectQuestionIds _ >>= _ = collectQuestionIds _ >>= _
    rw [show collectQuestionIds (pre ++ (m, .obj fs₁) :: post) =
        collectQuestionIds (pre ++ (m, .obj fs₂) :: post) from
      foldlM_congr_middle pre post _ _
        (collectDocStep_congr_mid he₁ he₂ hqid hmem) []]
    rcases hcq : collectQuestionIds (pre ++ (m, .obj fs₂) :: post) with e | qvals
    · rw [exc_bind_err, exc_bind_err]
    · rw [exc_bind_ok, exc_bind_ok]
      rcases hsrt : pySortedIds qvals with e | qs
      · rw [exc_bind_err, exc_bind_err]
      · rw [exc_bind_ok, exc_bind_ok]
        exact mapM_congr fun q _ =>
          foldlM_congr_middle pre post _ _
            (buildRowStep_congr_mid sts q hmd he₁ he₂ hqid hmem)
            [("question_id", .str q)]

/-- C4 witness: on the spec's scenario, doc1's Q1 correctness cell reads
the first Q1 item's score 8; and removing the middle duplicate from a
document whose items answer Q1, Q1 again, then Q2 leaves the table
unchanged. -/
theorem C4_first_match_wins_witness :
    lookupField (specRow specEvals ["correctness"] "Q1")
        ("doc1" ++ "_" ++ "correctness") =
      some ((lookupField [("correctness", JValue.num 8)] "correctness").getD
        .null) ∧
    create_comparison_table [("m", .obj [("evaluations", .arr
        [.obj [("question_id", .str "Q1"), ("scores", .obj [("c", .num 1)])],
         .obj [("question_id", .str "Q1"), ("scores", .obj [("c", .num 2)])],
         .obj [("question_id", .str "Q2"), ("scores", .obj [("c", .num 3)])]])])]
        ["c"] =
      create_comparison_table [("m", .obj [("evaluations", .arr
        [.obj [("question_id", .str "Q1"), ("scores", .obj [("c", .num 1)])],
         .obj [("question_id", .str "Q2"), ("scores", .obj [("c", .num 3)])]])])]
        ["c"] :=
  ⟨(C4_first_match_wins.1 specEvals ["correctness"] (by decide) (by decide)
      (by decide)).2 ("doc1", specDoc1) (by simp [specEvals]) "Q1" (by decide)
      []
      [("question_id", .str "Q1"), ("scores", .obj [("correctness", .num 8)])]
      [.obj [("question_id", .str "Q2"),
        ("scores", .obj [("correctness", .num 6)])]]
      rfl rfl (by simp) [("correctness", .num 8)] rfl "correctness" (by simp),
   C4_first_match_wins.2 [] [] "m"
     [("evaluations", .arr
       [.obj [("question_id", .str "Q1"), ("scores", .obj [("c", .num 1)])],
        .obj [("question_id", .str "Q1"), ("scores", .obj [("c", .num 2)])],
        .obj [("question_id", .str "Q2"), ("scores", .obj [("c", .num 3)])]])]
     [("evaluations", .arr
       [.obj [("question_id", .str "Q1"), ("scores", .obj [("c", .num 1)])],
        .obj [("question_id", .str "Q2"), ("scores", .obj [("c", .num 3)])]])]
     [.obj [("question_id", .str "Q1"), ("scores", .obj [("c", .num 1)])]]
     [.obj [("question_id", .str "Q2"), ("scores", .obj [("c", .num 3)])]]
     (.obj [("question_id", .str "Q1"), ("scores", .obj [("c", .num 2)])])
     ["c"] "Q1" rfl rfl rfl rfl (by decide)⟩

/-! ### The C1 claim: rows are the sorted union of question ids -/

/-- The document of the C1 counterexample: its only item answers Q1 with
a score type literally named id, loaded under the model name question. -/
def c1Doc : JValue :=
  .obj [("evaluations", .arr
    [.obj [("question_id", .str "Q1"), ("scores", .obj [("id", .num 3)])]])]

/-- C1 counterexample: for the document set {question: c1Doc} with score
type id, the generated score column name question_id collides with the
row-key column, so the built table's question_id entries are the score
values, not the sorted union of ids ({Q1}): the claim's row-key clause
fails at this input. -/
theorem C1_counterexample :
    specSortedUnion [("question", c1Doc)] = ["Q1"] ∧
    (create_comparison_table [("question", c1Doc)] ["id"]).map
      (fun rows => rows.map fun r => lookupField r "question_id") =
      .ok [some (.num 3)] ∧
    some (JValue.num 3) ≠ some (JValue.str "Q1") :=
  ⟨by decide, rfl, by simp⟩

/-- C1 amended: provided the generated column names do not collide (in
particular no document named question together with score type id), the
table has exactly one row per distinct question id, its row keys are the
sorted (ascending lexicographic) union of the ids across all documents,
and the row count equals the size of that union. -/
theorem C1_amended_rows_sorted_union (evals : List (String × JValue))
    (sts : List String) (hwf : ∀ p ∈ evals, wfDoc p.2 = true)
    (hms : ∀ p ∈ evals, wfFirstMatches p.2 (specSortedUnion evals) = true)
    (hnd : (tableColNames (evals.map Prod.fst) sts).Nodup) :
    ∃ rows, create_comparison_table evals sts = .ok rows ∧
      rows.map (fun r => lookupField r "question_id") =
        (specSortedUnion evals).map (fun q => some (.str q)) ∧
      rows.length = (allQidsFlat evals).toFinset.card := by
  refine ⟨(specSortedUnion evals).map (specRow evals sts),
    create_comparison_table_ok evals sts hwf hms hnd, ?_, ?_⟩
  · rw [List.map_map]
    exact List.map_congr_left fun q _ => specRow_qid evals sts q
  · rw [List.length_map]
    show (pySortStrs (allQidsFlat evals).dedup).length = _
    rw [(pySortStrs_perm _).length_eq]
    exact (List.card_toFinset _).symm

/-- C1 witness: the amended row-key theorem applied to the spec's
scenario documents. -/
theorem C1_amended_witness :
    (∀ p ∈ specEvals, wfDoc p.2 = true) ∧
    (∀ p ∈ specEvals, wfFirstMatches p.2 (specSortedUnion specEvals) = true) ∧
    (tableColNames (specEvals.map Prod.fst) ["correctness"]).Nodup ∧
    ∃ rows, create_comparison_table specEvals ["correctness"] = .ok rows ∧
      rows.map (fun r => lookupField r "question_id") =
        (specSortedUnion specEvals).map (fun q => some (.str q)) ∧
      rows.length = (allQidsFlat specEvals).toFinset.card :=
  ⟨by decide, by decide, by decide,
    C1_amended_rows_sorted_union specEvals ["correctness"]
      (by decide) (by decide) (by decide)⟩

/-! ### The C5 claim: evaluator cells and missing cells -/

/-- The document of the C5 counterexample: evaluator alice in the
metadata, and an item whose scores use the score-type name evaluator. -/
def c5Doc : JValue :=
  .obj [("evaluation_metadata", .obj [("evaluator", .str "alice")]),
    ("evaluations", .arr
      [.obj [("question_id", .str "Q1"),
        ("scores", .obj [("evaluator", .num 9)])]])]

/-- C5 counterexample: with a score type literally named evaluator, the
generated score column m_evaluator collides with the evaluator column,
which is overwritten by the score value: the evaluator cell is 9, not
the document's recorded evaluator alice, so the claim's evaluator clause
fails at this input. -/
theorem C5_counterexample :
    docEvaluator c5Doc = .str "alice" ∧
    (create_comparison_table [("m", c5Doc)] ["evaluator"]).map
      (fun rows => rows.map fun r => lookupField r "m_evaluator") =
      .ok [some (.num 9)] ∧
    some (JValue.num 9) ≠ some (JValue.str "alice") :=
  ⟨rfl, rfl, by simp⟩

/-- C5 amended: provided the generated column names do not collide (in
particular no score type named evaluator), every row records, per
document, the evaluator from evaluation_metadata.evaluator — the
sentinel "unknown" when the metadata or its evaluator field is absent —
even for question ids the document has no item for; score cells for such
ids are all the missing value null, as is the cell of a score type the
first matching item's scores lack; and the missing value is distinct
from a score of zero. -/
theorem C5_amended_evaluator_and_missing_cells (evals : List (String × JValue))
    (sts : List String) (hwf : ∀ p ∈ evals, wfDoc p.2 = true)
    (hms : ∀ p ∈ evals, wfFirstMatches p.2 (specSortedUnion evals) = true)
    (hnd : (tableColNames (evals.map Prod.fst) sts).Nodup) :
    create_comparison_table evals sts =
      .ok ((specSortedUnion evals).map (specRow evals sts)) ∧
    (∀ p ∈ evals, ∀ q ∈ specSortedUnion evals,
      lookupField (specRow evals sts q) (p.1 ++ "_evaluator") =
        some (docEvaluator p.2) ∧
      (findQuestionPure (docItems p.2) q = none →
        ∀ s ∈ sts,
          lookupField (specRow evals sts q) (p.1 ++ "_" ++ s) = some .null) ∧
      (∀ fsi sc, findQuestionPure (docItems p.2) q = some (.obj fsi) →
        lookupField fsi "scores" = some (.obj sc) →
        ∀ s ∈ sts, lookupField sc s = none →
          lookupField (specRow evals sts q) (p.1 ++ "_" ++ s) = some .null)) ∧
    (∀ fs : List (String × JValue),
      (lookupField fs "evaluation_metadata" = none →
        docEvaluator (.obj fs) = .str "unknown") ∧
      (∀ mf, lookupField fs "evaluation_metadata" = some (.obj mf) →
        lookupField mf "evaluator" = none →
        docEvaluator (.obj fs) = .str "unknown")) ∧
    JValue.null ≠ JValue.num 0 := by
  refine ⟨create_comparison_table_ok evals sts hwf hms hnd,
    fun p hp q hq => ⟨specRow_evaluator hnd hp, fun hnone s hs => ?_,
      fun fsi sc hfind hsc s hs hmiss => ?_⟩,
    fun fs => ⟨fun h => by simp [docEvaluator, h],
      fun mf h1 h2 => by simp [docEvaluator, h1, h2]⟩,
    by simp⟩
  · rw [specRow_cell hnd hp hs, specCell_of_none hnone]
  · rw [specRow_cell hnd hp hs, specCell_of_found hfind hsc, hmiss]
    rfl

/-- C5 witness: the amended theorem applied to the spec's scenario; in
particular doc2 (no metadata) gets the sentinel, and Q2 is missing from
doc2. -/
theorem C5_amended_witness :
    (∀ p ∈ specEvals, wfDoc p.2 = true) ∧
    (create_comparison_table specEvals ["correctness"] =
      .ok ((specSortedUnion specEvals).map (specRow specEvals ["correctness"])) ∧
    (∀ p ∈ specEvals, ∀ q ∈ specSortedUnion specEvals,
      lookupField (specRow specEvals ["correctness"] q) (p.1 ++ "_evaluator") =
        some (docEvaluator p.2) ∧
      (findQuestionPure (docItems p.2) q = none →
        ∀ s ∈ ["correctness"],
          lookupField (specRow specEvals ["correctness"] q) (p.1 ++ "_" ++ s) =
            some .null) ∧
      (∀ fsi sc, findQuestionPure (docItems p.2) q = some (.obj fsi) →
        lookupField fsi "scores" = some (.obj sc) →
        ∀ s ∈ ["correctness"], lookupField sc s = none →
          lookupField (specRow specEvals ["correctness"] q) (p.1 ++ "_" ++ s) =
            some .null)) ∧
    (∀ fs : List (String × JValue),
      (lookupField fs "evaluation_metadata" = none →
        docEvaluator (.obj fs) = .str "unknown") ∧
      (∀ mf, lookupField fs "evaluation_metadata" = some (.obj mf) →
        lookupField mf "evaluator" = none →
        docEvaluator (.obj fs) = .str "unknown")) ∧
    JValue.null ≠ JValue.num 0) :=
  ⟨by decide,
    C5_amended_evaluator_and_missing_cells specEvals ["correctness"]
      (by decide) (by decide) (by decide)⟩

/-! ### The C10 claim: unguarded key accesses -/

theorem foldlM_ok_of_step {f : Row → (String × JValue) → Except PyErr Row} :
    ∀ {l : List (String × JValue)} {x : Row},
      (∀ (x' : Row), ∀ p ∈ l, ∃ y, f x' p = .ok y) →
      ∃ y, (l.foldlM f x : Except PyErr Row) = .ok y
  | [], x, _ => ⟨x, rfl⟩
  | p :: l, x, h => by
    obtain ⟨y, hy⟩ := h x p (List.mem_cons_self p l)
    rw [List.foldlM_cons, hy, exc_bind_ok]
    exact foldlM_ok_of_step fun x' q hq => h x' q (List.mem_cons_of_mem p hq)

theorem mapM_ok_of {α β : Type} {f : α → Except PyErr β} :
    ∀ {l : List α}, (∀ x ∈ l, ∃ y, f x = .ok y) →
      ∃ ys, l.mapM f = .ok ys
  | [], _ => ⟨[], rfl⟩
  | x :: l, h => by
    obtain ⟨y, hy⟩ := h x (List.mem_cons_self x l)
    obtain ⟨ys, hys⟩ := mapM_ok_of fun z hz => h z (List.mem_cons_of_mem x hz)
    rw [List.mapM_cons, hy, hys]
    exact ⟨y :: ys, rfl⟩

/-- Without any freshness requirement on column names, a step of the row
builder on a well-formed document still succeeds. -/
theorem buildRowStep_isOk (sts : List String) (qid : String) (rd : Row)
    (p : String × JValue) (hwf : wfDoc p.2 = true)
    (hms : ∀ it, findQuestionPure (docItems p.2) qid = some it →
      wfItemScores it = true) :
    ∃ rd', buildRowStep sts qid rd p = .ok rd' := by
  obtain ⟨mv, hm1, hm2⟩ := doc_metadata_get hwf
  obtain ⟨ev, he1, he2⟩ := doc_evals_get hwf
  unfold buildRowStep
  show (∃ rd', (do
    let meta ← pyGet p.2 "evaluation_metadata" (.obj [])
    let evaluator ← pyGet meta "evaluator" (.str "unknown")
    let evs ← pyGet p.2 "evaluations" (.arr [])
    let items ← pyIterElems evs
    let question_data ← findQuestion items qid
    match question_data with
    | some item =>
      if pyTruthy item then do
        let scores ← pyIndexStr item "scores"
        sts.foldlM
          (fun rd' s => do
            let v ← pyGet scores s .null
            pure (dictInsert rd' (p.1 ++ "_" ++ s) v))
          (dictInsert rd (p.1 ++ "_evaluator") evaluator)
      else
        pure (sts.foldl
          (fun rd' s => dictInsert rd' (p.1 ++ "_" ++ s) .null)
          (dictInsert rd (p.1 ++ "_evaluator") evaluator))
    | none =>
      pure (sts.foldl
        (fun rd' s => dictInsert rd' (p.1 ++ "_" ++ s) .null)
        (dictInsert rd (p.1 ++ "_evaluator") evaluator)) :
    Except PyErr Row) = .ok rd')
  simp only [hm1, hm2, he1, he2, exc_bind_ok]
  rw [findQuestion_ok (wfDoc_items_all hwf) qid]
  simp only [exc_bind_ok]
  rcases hfind : findQuestionPure (docItems p.2) qid with _ | it
  · exact ⟨_, rfl⟩
  · have hitem : wfItem it = true := by
      have hall := wfDoc_items_all hwf
      rw [List.all_eq_true] at hall
      exact hall it (findQuestionPure_mem hfind)
    obtain ⟨fs, sc, rfl, hsc, hidxsc⟩ := wfItemScores_scores (hms _ hfind)
    simp only [wfItem_truthy hitem, if_true, hidxsc, exc_bind_ok,
      foldlM_scores_ok sts _ p.1 sc]
    exact ⟨_, rfl⟩

/-- C10: the builder reads item['question_id'] and ['scores'] without a
presence check.  Under the precondition that every item of every
document carries a string question_id (and documents are otherwise
well-shaped) and every first-matching item carries a scores mapping, the
build reaches no error branch; but an evaluation item lacking
question_id makes the build fail with KeyError 'question_id', and a
first-matching item lacking scores makes it fail with KeyError 'scores',
instead of recording a missing cell. -/
theorem C10_unguarded_key_access :
    (∀ (evals : List (String × JValue)) (sts : List String),
      (∀ p ∈ evals, wfDoc p.2 = true) →
      (∀ p ∈ evals, wfFirstMatches p.2 (specSortedUnion evals) = true) →
      ∃ rows, create_comparison_table evals sts = .ok rows) ∧
    create_comparison_table
      [("m", .obj [("evaluations", .arr [.obj [("answer", .str "x")]])])] ["c"] =
      .error (.keyError "question_id") ∧
    create_comparison_table
      [("m", .obj [("evaluations", .arr [.obj [("question_id", .str "Q1")]])])]
      ["c"] = .error (.keyError "scores") := by
  refine ⟨fun evals sts hwf hms => ?_, rfl, rfl⟩
  have hrow : ∀ q ∈ specSortedUnion evals,
      ∃ r, buildRow evals sts q = .ok r := by
    intro q hq
    refine foldlM_ok_of_step fun rd p hp => ?_
    refine buildRowStep_isOk sts q rd p (hwf p hp) fun it hit => ?_
    have hall := hms p hp
    rw [wfFirstMatches, List.all_eq_true] at hall
    have hthis := hall q hq
    rw [hit] at hthis
    exact hthis
  obtain ⟨rows, hrows⟩ := mapM_ok_of hrow
  refine ⟨rows, ?_⟩
  unfold create_comparison_table
  rw [collectQuestionIds_ok hwf, exc_bind_ok]
  show pySortedIds _ >>= _ = _
  rw [show pySortedIds ((collectedIds evals []).map JValue.str) =
      .ok (pySortStrs (collectedIds evals [])) from by
    simp [pySortedIds, toStrList_map_str]]
  rw [exc_bind_ok, sorted_collected_eq, hrows]

/-- C10 witness: the success half applied to the spec's scenario
documents (whose items all carry question_id and scores). -/
theorem C10_unguarded_key_access_witness :
    (∀ p ∈ specEvals, wfDoc p.2 = true) ∧
    (∀ p ∈ specEvals, wfFirstMatches p.2 (specSortedUnion specEvals) = true) ∧
    ∃ rows, create_comparison_table specEvals ["correctness"] = .ok rows :=
  ⟨by decide, by decide,
    C10_unguarded_key_access.1 specEvals ["correctness"] (by decide) (by decide)⟩

/-! ### The C9 claim: export column order and determinism -/

/-- The document of the C9 counterexample. -/
def c9Doc : JValue :=
  .obj [("evaluations", .arr
    [.obj [("question_id", .str "Q1"), ("scores", .obj [("c", .num 1)])]])]

/-- C9 counterexample: with the documents loaded in the order b, a, the
exported comparison table's columns follow the dict insertion order
(b's columns before a's), not the sorted document ids × sorted score
types the claim states. -/
theorem C9_counterexample :
    (create_comparison_table [("b", c9Doc), ("a", c9Doc)] ["c"]).map
      (fun rows => (pdDataFrame rows).cols) =
      .ok ["question_id", "b_evaluator", "b_c", "a_evaluator", "a_c"] ∧
    spec_export_columns [("b", c9Doc), ("a", c9Doc)] ["c"] =
      ["question_id", "a_evaluator", "a_c", "b_evaluator", "b_c"] ∧
    (["question_id", "b_evaluator", "b_c", "a_evaluator", "a_c"] : List String) ≠
      ["question_id", "a_evaluator", "a_c", "b_evaluator", "b_c"] :=
  ⟨rfl, by decide, by decide⟩

/-- C9 amended: the serialized comparison table is the deterministic
grid fully determined by the documents, their insertion order and the
score-type iteration order: the columns are question_id first, then per
document (in insertion order) its evaluator column followed by its score
columns (in score-type order), and the rows enumerate the sorted union
of question ids. -/
theorem C9_amended_export_grid (evals : List (String × JValue))
    (sts : List String) (hwf : ∀ p ∈ evals, wfDoc p.2 = true)
    (hms : ∀ p ∈ evals, wfFirstMatches p.2 (specSortedUnion evals) = true)
    (hnd : (tableColNames (evals.map Prod.fst) sts).Nodup)
    (hne : specSortedUnion evals ≠ []) :
    ∃ rows, create_comparison_table evals sts = .ok rows ∧
      df_to_csv (pdDataFrame rows) =
        (tableColNames (evals.map Prod.fst) sts,
         (specSortedUnion evals).map fun q =>
           (tableColNames (evals.map Prod.fst) sts).map fun c =>
             (lookupField (specRow evals sts q) c).getD .null) := by
  refine ⟨(specSortedUnion evals).map (specRow evals sts),
    create_comparison_table_ok evals sts hwf hms hnd, ?_⟩
  have hcols : (pdDataFrame ((specSortedUnion evals).map (specRow evals sts))).cols =
      tableColNames (evals.map Prod.fst) sts :=
    pdDataFrame_cols (fun q _ => specRow_keys evals sts q) hne hnd
  show ((pdDataFrame _).cols, _) = _
  rw [hcols]
  refine congrArg _ ?_
  show ((specSortedUnion evals).map (specRow evals sts)).map _ = _
  rw [List.map_map]
  exact List.map_congr_left fun q _ => rfl

/-- C9 witness: the amended export characterization applied to the
spec's scenario. -/
theorem C9_amended_witness :
    (∀ p ∈ specEvals, wfDoc p.2 = true) ∧
    specSortedUnion specEvals ≠ [] ∧
    ∃ rows, create_comparison_table specEvals ["correctness"] = .ok rows ∧
      df_to_csv (pdDataFrame rows) =
        (tableColNames (specEvals.map Prod.fst) ["correctness"],
         (specSortedUnion specEvals).map fun q =>
           (tableColNames (specEvals.map Prod.fst) ["correctness"]).map fun c =>
             (lookupField (specRow specEvals ["correctness"] q) c).getD .null) :=
  ⟨by decide, by decide,
    C9_amended_export_grid specEvals ["correctness"]
      (by decide) (by decide) (by decide) (by decide)⟩

/-! ### The C6 claim: summary statistics -/

/-- Every cell of a document over given ids and score types is numeric
or missing (the shape pandas needs to compute quantiles). -/
def numericCells (d : JValue) (qids sts : List String) : Bool :=
  qids.all fun q => sts.all fun s =>
    match specCell d q s with
    | .null => true
    | .num _ => true
    | _ => false

theorem seriesNums_eq :
    ∀ {l : List JValue}, (∀ v ∈ l, v = .null ∨ ∃ x, v = .num x) →
      seriesNums l = .ok (l.filterMap toNum)
  | [], _ => rfl
  | v :: l, h => by
    rcases h v (List.mem_cons_self v l) with rfl | ⟨x, rfl⟩
    · rw [show seriesNums (JValue.null :: l) = seriesNums l from rfl,
        seriesNums_eq fun w hw => h w (List.mem_cons_of_mem _ hw)]
      rfl
    · rw [show seriesNums (JValue.num x :: l) =
          (do
            let r ← seriesNums l
            pure (x :: r) : Except PyErr (List ℚ)) from rfl,
        seriesNums_eq fun w hw => h w (List.mem_cons_of_mem _ hw), exc_bind_ok]
      rfl

/-- Membership under == of a mapped string list. -/
theorem anyBeq_map_str (E : List String) (q : String) :
    ((E.map JValue.str).any fun e => e.beq (.str q)) = decide (q ∈ E) := by
  induction E with
  | nil => simp
  | cons e E ih =>
    rw [List.map_cons, List.any_cons, ih]
    by_cases he : e = q
    · subst he
      simp [JValue.beq]
    · simp [JValue.beq, he, Ne.symm he]

/-- A column name of one document's score cell occurs among the table's
columns. -/
theorem mem_tableColNames_cell {models : List String} {sts : List String}
    {m s : String} (hm : m ∈ models) (hs : s ∈ sts) :
    (m ++ "_" ++ s) ∈ tableColNames models sts := by
  refine List.mem_cons_of_mem _ (List.mem_flatten.mpr ⟨modelColNames m sts, ?_, ?_⟩)
  · exact List.mem_map_of_mem _ hm
  · exact List.mem_cons_of_mem _ (List.mem_map_of_mem _ hs)

theorem mem_tableColNames_evaluator {models : List String} {sts : List String}
    {m : String} (hm : m ∈ models) :
    (m ++ "_evaluator") ∈ tableColNames models sts := by
  refine List.mem_cons_of_mem _ (List.mem_flatten.mpr ⟨modelColNames m sts, ?_, ?_⟩)
  · exact List.mem_map_of_mem _ hm
  · exact List.mem_cons_self _ _

/-- The pandas quantiles of the two-value sample {8, 6}. -/
theorem pdQuantile_eight_six :
    pdQuantile (1 / 4) [8, 6] = some (13 / 2) ∧
    pdQuantile (1 / 2) [8, 6] = some 7 ∧
    pdQuantile (3 / 4) [8, 6] = some (15 / 2) := by
  have hsort : ([8, 6] : List ℚ).insertionSort (· ≤ ·) = [6, 8] := by decide
  unfold pdQuantile
  rw [hsort]
  unfold pdQuantileOfSorted
  norm_num

/-- C6: over the built table, the summary statistics for (document,
score type) are the pandas 25th percentile, median and 75th percentile
of the numeric (non-missing) values of that column restricted to rows
whose question id is not excluded; missing cells are dropped rather than
zeroed; an all-missing sample yields NaN (none) rather than an error;
and in the spec's two-document scenario doc1's correctness statistics
with nothing excluded are Q25 = 6.5, median = 7, Q75 = 7.5. -/
theorem C6_summary_statistics (evals : List (String × JValue))
    (sts : List String) (E : List String)
    (hwf : ∀ p ∈ evals, wfDoc p.2 = true)
    (hms : ∀ p ∈ evals, wfFirstMatches p.2 (specSortedUnion evals) = true)
    (hnd : (tableColNames (evals.map Prod.fst) sts).Nodup)
    (hne : specSortedUnion evals ≠ [])
    (p : String × JValue) (hp : p ∈ evals)
    (hnum : numericCells p.2 (specSortedUnion evals) sts = true) :
    (∃ rows fdf, create_comparison_table evals sts = .ok rows ∧
      filterNotExcluded (pdDataFrame rows) (E.map .str) = .ok fdf ∧
      model_summary (pdDataFrame rows) fdf p.1 sts =
        .ok (docEvaluator p.2, sts.map fun s =>
          (s,
            (pdQuantile (1 / 4)
              (((specSortedUnion evals).filter fun q => !(decide (q ∈ E))).filterMap
                fun q => toNum (specCell p.2 q s)),
             pdQuantile (1 / 2)
              (((specSortedUnion evals).filter fun q => !(decide (q ∈ E))).filterMap
                fun q => toNum (specCell p.2 q s)),
             pdQuantile (3 / 4)
              (((specSortedUnion evals).filter fun q => !(decide (q ∈ E))).filterMap
                fun q => toNum (specCell p.2 q s)))))) ∧
    (∀ qq : ℚ, pdQuantile qq [] = none) ∧
    (∃ rowsS fdfS, create_comparison_table specEvals ["correctness"] = .ok rowsS ∧
      filterNotExcluded (pdDataFrame rowsS) [] = .ok fdfS ∧
      score_stats fdfS "doc1_correctness" =
        .ok (some (13 / 2), some 7, some (15 / 2))) := by
  have hrows := create_comparison_table_ok evals sts hwf hms hnd
  have hcols : (pdDataFrame ((specSortedUnion evals).map (specRow evals sts))).cols =
      tableColNames (evals.map Prod.fst) sts :=
    pdDataFrame_cols (fun q _ => specRow_keys evals sts q) hne hnd
  have hqidmem : "question_id" ∈
      (pdDataFrame ((specSortedUnion evals).map (specRow evals sts))).cols := by
    rw [hcols]
    exact List.mem_cons_self _ _
  have hfilt : filterNotExcluded
      (pdDataFrame ((specSortedUnion evals).map (specRow evals sts))) (E.map .str) =
      .ok ⟨(pdDataFrame ((specSortedUnion evals).map (specRow evals sts))).cols,
        ((specSortedUnion evals).filter fun q => !(decide (q ∈ E))).map
          (specRow evals sts)⟩ := by
    unfold filterNotExcluded
    rw [if_pos hqidmem]
    refine congrArg _ (congrArg _ ?_)
    show ((specSortedUnion evals).map (specRow evals sts)).filter _ = _
    rw [List.filter_map]
    refine congrArg (List.map _) (List.filter_congr fun q hq => ?_)
    simp [Function.comp, specRow_qid, anyBeq_map_str]
  have hmodels : p.1 ∈ evals.map Prod.fst := List.mem_map_of_mem Prod.fst hp
  have hcol : ∀ s ∈ sts,
      dfGetCol ⟨(pdDataFrame ((specSortedUnion evals).map (specRow evals sts))).cols,
        ((specSortedUnion evals).filter fun q => !(decide (q ∈ E))).map
          (specRow evals sts)⟩ (p.1 ++ "_" ++ s) =
      .ok (((specSortedUnion evals).filter fun q => !(decide (q ∈ E))).map
        fun q => specCell p.2 q s) := by
    intro s hs
    unfold dfGetCol
    rw [if_pos (by rw [hcols]; exact mem_tableColNames_cell hmodels hs)]
    show Except.ok (List.map _ (List.map _ _)) = _
    rw [List.map_map]
    refine congrArg _ (List.map_congr_left fun q _ => ?_)
    show (lookupField (specRow evals sts q) (p.1 ++ "_" ++ s)).getD .null = _
    rw [specRow_cell hnd hp hs]
    rfl
  have hnum' : ∀ q ∈ specSortedUnion evals, ∀ s ∈ sts,
      specCell p.2 q s = .null ∨ ∃ x, specCell p.2 q s = .num x := by
    intro q hq s hs
    rw [numericCells, List.all_eq_true] at hnum
    have h1 := hnum q hq
    rw [List.all_eq_true] at h1
    have h2 := h1 s hs
    rcases hv : specCell p.2 q s with _ | _ | x | _ | _ | _ <;> rw [hv] at h2 <;>
      simp at h2
    · exact .inl rfl
    · exact .inr ⟨x, rfl⟩
  have hstats : ∀ s ∈ sts,
      score_stats ⟨(pdDataFrame ((specSortedUnion evals).map (specRow evals sts))).cols,
        ((specSortedUnion evals).filter fun q => !(decide (q ∈ E))).map
          (specRow evals sts)⟩ (p.1 ++ "_" ++ s) =
      .ok (pdQuantile (1 / 4)
            (((specSortedUnion evals).filter fun q => !(decide (q ∈ E))).filterMap
              fun q => toNum (specCell p.2 q s)),
           pdQuantile (1 / 2)
            (((specSortedUnion evals).filter fun q => !(decide (q ∈ E))).filterMap
              fun q => toNum (specCell p.2 q s)),
           pdQuantile (3 / 4)
            (((specSortedUnion evals).filter fun q => !(decide (q ∈ E))).filterMap
              fun q => toNum (specCell p.2 q s))) := by
    intro s hs
    unfold score_stats
    rw [hcol s hs, exc_bind_ok]
    rw [seriesNums_eq fun v hv => by
      obtain ⟨q, hq, rfl⟩ := List.mem_map.mp hv
      exact hnum' q (List.mem_of_mem_filter hq) s hs]
    rw [exc_bind_ok, List.filterMap_map]
    rfl
  have heval : dfGetCol (pdDataFrame ((specSortedUnion evals).map (specRow evals sts)))
      (p.1 ++ "_evaluator") =
      .ok ((specSortedUnion evals).map fun _ => docEvaluator p.2) := by
    unfold dfGetCol
    rw [if_pos (by rw [hcols]; exact mem_tableColNames_evaluator hmodels)]
    show Except.ok (List.map _ (List.map _ _)) = _
    rw [List.map_map]
    refine congrArg _ (List.map_congr_left fun q _ => ?_)
    show (lookupField (specRow evals sts q) (p.1 ++ "_evaluator")).getD .null = _
    rw [specRow_evaluator hnd hp]
    rfl
  refine ⟨?_, fun qq => rfl, ?_⟩
  · refine ⟨(specSortedUnion evals).map (specRow evals sts),
      ⟨(pdDataFrame ((specSortedUnion evals).map (specRow evals sts))).cols,
        ((specSortedUnion evals).filter fun q => !(decide (q ∈ E))).map
          (specRow evals sts)⟩, hrows, hfilt, ?_⟩
    have hmatch : iloc0 ((specSortedUnion evals).map fun _ => docEvaluator p.2) =
        .ok (docEvaluator p.2) := by
      obtain ⟨q0, qrest, hq⟩ := List.exists_cons_of_ne_nil hne
      rw [hq, List.map_cons]
      rfl
    have hmapm : (sts.mapM fun s => do
        let st ← score_stats
          ⟨(pdDataFrame ((specSortedUnion evals).map (specRow evals sts))).cols,
            ((specSortedUnion evals).filter fun q => !(decide (q ∈ E))).map
              (specRow evals sts)⟩ (p.1 ++ "_" ++ s)
        pure (s, st) : Except PyErr _) =
        .ok (sts.map fun s =>
          (s,
            (pdQuantile (1 / 4)
              (((specSortedUnion evals).filter fun q => !(decide (q ∈ E))).filterMap
                fun q => toNum (specCell p.2 q s)),
             pdQuantile (1 / 2)
              (((specSortedUnion evals).filter fun q => !(decide (q ∈ E))).filterMap
                fun q => toNum (specCell p.2 q s)),
             pdQuantile (3 / 4)
              (((specSortedUnion evals).filter fun q => !(decide (q ∈ E))).filterMap
                fun q => toNum (specCell p.2 q s))))) :=
      mapM_ok fun s hs => by rw [hstats s hs, exc_bind_ok, exc_pure]
    unfold model_summary
    rw [heval, exc_bind_ok, hmatch, exc_bind_ok, hmapm, exc_bind_ok, exc_pure]
  · refine ⟨(specSortedUnion specEvals).map (specRow specEvals ["correctness"]),
      ⟨(pdDataFrame ((specSortedUnion specEvals).map
          (specRow specEvals ["correctness"]))).cols,
        (specSortedUnion specEvals).map (specRow specEvals ["correctness"])⟩,
      rfl, rfl, ?_⟩
    have h1 : score_stats
        ⟨(pdDataFrame ((specSortedUnion specEvals).map
            (specRow specEvals ["correctness"]))).cols,
          (specSortedUnion specEvals).map (specRow specEvals ["correctness"])⟩
        "doc1_correctness" =
        .ok (pdQuantile (1 / 4) [8, 6], pdQuantile (1 / 2) [8, 6],
          pdQuantile (3 / 4) [8, 6]) := rfl
    rw [h1, pdQuantile_eight_six.1, pdQuantile_eight_six.2.1,
      pdQuantile_eight_six.2.2]

/-- C6 witness: the statistics characterization applied to the spec's
scenario, document doc1, score type correctness, nothing excluded. -/
theorem C6_summary_statistics_witness :
    (∀ p ∈ specEvals, wfDoc p.2 = true) ∧
    (tableColNames (specEvals.map Prod.fst) ["correctness"]).Nodup ∧
    numericCells ("doc1", specDoc1).2 (specSortedUnion specEvals) ["correctness"] =
      true ∧
    ((∃ rows fdf, create_comparison_table specEvals ["correctness"] = .ok rows ∧
      filterNotExcluded (pdDataFrame rows) (([] : List String).map .str) = .ok fdf ∧
      model_summary (pdDataFrame rows) fdf ("doc1", specDoc1).1 ["correctness"] =
        .ok (docEvaluator ("doc1", specDoc1).2, ["correctness"].map fun s =>
          (s,
            (pdQuantile (1 / 4)
              (((specSortedUnion specEvals).filter fun q =>
                  !(decide (q ∈ ([] : List String)))).filterMap
                fun q => toNum (specCell ("doc1", specDoc1).2 q s)),
             pdQuantile (1 / 2)
              (((specSortedUnion specEvals).filter fun q =>
                  !(decide (q ∈ ([] : List String)))).filterMap
                fun q => toNum (specCell ("doc1", specDoc1).2 q s)),
             pdQuantile (3 / 4)
              (((specSortedUnion specEvals).filter fun q =>
                  !(decide (q ∈ ([] : List String)))).filterMap
                fun q => toNum (specCell ("doc1", specDoc1).2 q s)))))) ∧
    (∀ qq : ℚ, pdQuantile qq [] = none) ∧
    (∃ rowsS fdfS, create_comparison_table specEvals ["correctness"] = .ok rowsS ∧
      filterNotExcluded (pdDataFrame rowsS) [] = .ok fdfS ∧
      score_stats fdfS "doc1_correctness" =
        .ok (some (13 / 2), some 7, some (15 / 2)))) :=
  ⟨by decide, by decide, by decide,
    C6_summary_statistics specEvals ["correctness"] [] (by decide) (by decide)
      (by decide) (by decide) ("doc1", specDoc1) (by simp [specEvals]) (by decide)⟩

/-! ### The C7 claim: exclusion changes statistics only -/

theorem mapM_mem {α β : Type} {f : α → Except PyErr β} :
    ∀ {l : List α} {ys : List β}, l.mapM f = .ok ys →
      ∀ y ∈ ys, ∃ x ∈ l, f x = .ok y
  | [], ys, h, y, hy => by
    rw [show ([] : List α).mapM f = .ok [] from rfl] at h
    injection h with h'
    subst h'
    simp at hy
  | x :: xs, ys, h, y, hy => by
    rw [List.mapM_cons] at h
    rcases hx : f x with e | y0
    · rw [hx, exc_bind_err] at h
      exact absurd h (by simp)
    · rw [hx, exc_bind_ok] at h
      rcases hxs : xs.mapM f with e | ys0
      · rw [hxs, exc_bind_err] at h
        exact absurd h (by simp)
      · rw [hxs, exc_bind_ok, exc_pure] at h
        injection h with h'
        subst h'
        rcases List.mem_cons.mp hy with rfl | hmem
        · exact ⟨x, List.mem_cons_self x xs, hx⟩
        · obtain ⟨x', hx', hfx'⟩ := mapM_mem hxs y hmem
          exact ⟨x', List.mem_cons_of_mem x hx', hfx'⟩

/-- The y axis of a successfully built heatmap is the question_id column
of the frame it was given. -/
theorem create_score_heatmap_y {df : DF} {s : String} {h : Heatmap}
    (hok : create_score_heatmap df s = .ok h) :
    h.y = df.rows.map fun r => (lookupField r "question_id").getD .null := by
  unfold create_score_heatmap at hok
  rcases hy : dfGetCol df "question_id" with e | y
  · rw [hy, exc_bind_err] at hok
    exact absurd hok (by simp)
  · rw [hy, exc_bind_ok, exc_pure] at hok
    injection hok with hok'
    subst hok'
    unfold dfGetCol at hy
    by_cases hmem : "question_id" ∈ df.cols
    · rw [if_pos hmem] at hy
      injection hy with hy'
      exact hy'.symm
    · rw [if_neg hmem] at hy
      exact absurd hy (by simp)

/-- C7: for a fixed document set and score-type order, changing the
exclusion set changes only the derived statistics and histograms: the
comparison table (row set and every cell) and the heatmaps are
unchanged, and every heatmap's y axis is the question_id column over all
rows of the full table, unaffected by exclusion. -/
theorem C7_exclusion_frame (evals : List (String × JValue)) (sts : List String)
    (E₁ E₂ : List JValue) (v₁ v₂ : ViewOut)
    (h₁ : mainView evals sts E₁ = .ok v₁)
    (h₂ : mainView evals sts E₂ = .ok v₂) :
    v₁.table = v₂.table ∧
    v₁.heatmaps = v₂.heatmaps ∧
    ∀ sh ∈ v₁.heatmaps,
      sh.2.y = v₁.table.rows.map fun r => (lookupField r "question_id").getD .null := by
  unfold mainView at h₁ h₂
  rcases hr : create_comparison_table evals sts with e | rows
  · rw [hr] at h₁
    simp only [exc_bind_err] at h₁
    exact absurd h₁ (by simp)
  · rw [hr] at h₁ h₂
    simp only [exc_bind_ok] at h₁ h₂
    rcases hf₁ : filterNotExcluded (pdDataFrame rows) E₁ with e | fdf₁
    · simp only [hf₁, exc_bind_err] at h₁
      exact absurd h₁ (by simp)
    rcases hf₂ : filterNotExcluded (pdDataFrame rows) E₂ with e | fdf₂
    · simp only [hf₂, exc_bind_err] at h₂
      exact absurd h₂ (by simp)
    simp only [hf₁, exc_bind_ok] at h₁
    simp only [hf₂, exc_bind_ok] at h₂
    rcases hs₁ : summary_table (pdDataFrame rows) fdf₁ (evals.map Prod.fst) sts
      with e | sum₁
    · simp only [hs₁, exc_bind_err] at h₁
      exact absurd h₁ (by simp)
    rcases hs₂ : summary_table (pdDataFrame rows) fdf₂ (evals.map Prod.fst) sts
      with e | sum₂
    · simp only [hs₂, exc_bind_err] at h₂
      exact absurd h₂ (by simp)
    simp only [hs₁, exc_bind_ok] at h₁
    simp only [hs₂, exc_bind_ok] at h₂
    rcases hh : mainHeatmaps (pdDataFrame rows) sts with e | hms
    · simp only [hh, exc_bind_err] at h₁
      exact absurd h₁ (by simp)
    simp only [hh, exc_bind_ok] at h₁ h₂
    rcases hg₁ : mainHistograms (evals.map Prod.fst) fdf₁ sts with e | hist₁
    · simp only [hg₁, exc_bind_err] at h₁
      exact absurd h₁ (by simp)
    rcases hg₂ : mainHistograms (evals.map Prod.fst) fdf₂ sts with e | hist₂
    · simp only [hg₂, exc_bind_err] at h₂
      exact absurd h₂ (by simp)
    simp only [hg₁, exc_bind_ok, exc_pure] at h₁
    simp only [hg₂, exc_bind_ok, exc_pure] at h₂
    injection h₁ with h₁'
    injection h₂ with h₂'
    subst h₁'
    subst h₂'
    refine ⟨rfl, rfl, fun sh hsh => ?_⟩
    unfold mainHeatmaps at hh
    obtain ⟨s, _, hfs⟩ := mapM_mem hh sh hsh
    rcases hc : create_score_heatmap (pdDataFrame rows) s with e | hm
    · rw [hc, exc_bind_err] at hfs
      exact absurd hfs (by simp)
    · rw [hc, exc_bind_ok, exc_pure] at hfs
      injection hfs with hfs'
      subst hfs'
      exact create_score_heatmap_y hc

theorem isOk_exists {α : Type} {x : Except PyErr α} (h : x.isOk = true) :
    ∃ v, x = .ok v := by
  cases x with
  | error e => simp [Except.isOk, Except.toBool] at h
  | ok v => exact ⟨v, rfl⟩

/-- C7 witness: two runs of the pipeline over the spec's scenario, one
excluding nothing and one excluding Q2, share the table and heatmaps. -/
theorem C7_exclusion_frame_witness :
    ∃ v₁ v₂, mainView specEvals ["correctness"] [] = .ok v₁ ∧
      mainView specEvals ["correctness"] [.str "Q2"] = .ok v₂ ∧
      v₁.table = v₂.table ∧
      v₁.heatmaps = v₂.heatmaps ∧
      ∀ sh ∈ v₁.heatmaps,
        sh.2.y = v₁.table.rows.map fun r =>
          (lookupField r "question_id").getD .null := by
  obtain ⟨v₁, hv₁⟩ := isOk_exists
    (show (mainView specEvals ["correctness"] []).isOk = true from rfl)
  obtain ⟨v₂, hv₂⟩ := isOk_exists
    (show (mainView specEvals ["correctness"] [.str "Q2"]).isOk = true from rfl)
  exact ⟨v₁, v₂, hv₁, hv₂,
    C7_exclusion_frame specEvals ["correctness"] [] [.str "Q2"] v₁ v₂ hv₁ hv₂⟩
